import Mathlib

/-!
# Verification of the brain-at-home chat-turn orchestrator

Shallow embedding of the turn-handling core of the `brain-at-home`
repository: the token-budget utilities (`src/lib/utils.js`), the memory
and prompt assembler (`lib/memory.js`), the routing decision engine and
turn handler (`src/gateway.js`, the large unnamed server file), the
per-key serialization lock (`src/lib/locks.js`), and the admission-queue
discipline in front of the inference collaborator.

Conventions used throughout:
* JS strings are modelled as Lean `String`, manipulated through their
  character lists (`String.data`), with `/\s+/` collapse, `trim`,
  `toLowerCase`, `slice`, `length` transcribed as executable functions
  over `List Char`.
* JS numbers used as timestamps, budgets and counts are `Nat`;
  classifier confidence values are `Rat` (with `Math.min`/`Math.max`
  as `min`/`max`).
* Calls to the external collaborators (Ollama inference, web agent)
  are oracle inputs: each call site consumes the collaborator's reply
  for that call, modelled post-JSON-extraction (the `extractJson` /
  `JSON.parse` boundary); the `typeof` / `Array.isArray` structural
  validation performed by the source on the extracted values is
  transcribed as matches on an explicit JS-value type. A call that
  throws (timeout, non-2xx) is an `Except.error`.
* Fallible JS paths (`try`/`catch`) become `Except`/`Option` matches.
-/

namespace BrainAtHome

/-! ## Character/string primitives (JS semantics helpers) -/

/-- The characters matched by the JS `\s` class (ASCII portion). -/
def isWsChar (c : Char) : Bool :=
  c = ' ' || c = '\t' || c = '\n' || c = '\r' || c = Char.ofNat 11 || c = Char.ofNat 12

/-- Rebuild a `String` from a character list. -/
def ofChars (l : List Char) : String := String.mk l

/-- The JS `\w` class: `[A-Za-z0-9_]`. -/
def isWordChar (c : Char) : Bool :=
  ('a' ≤ c && c ≤ 'z') || ('A' ≤ c && c ≤ 'Z') || ('0' ≤ c && c ≤ '9') || c = '_'

/-- ASCII lower-casing, as JS `toLowerCase` on the ASCII range. -/
def lowerChars (l : List Char) : List Char := l.map Char.toLower

/-- Collapse runs of spaces to a single space (second half of
`replace(/\s+/g, ' ')` after each whitespace char is mapped to a space). -/
def squeezeSpaces : List Char → List Char
  | [] => []
  | [c] => [c]
  | c1 :: c2 :: rest =>
    if c1 = ' ' && c2 = ' ' then squeezeSpaces (c2 :: rest)
    else c1 :: squeezeSpaces (c2 :: rest)

/-- JS `replace(/\s+/g, ' ')` on a character list. -/
def collapseWsChars (l : List Char) : List Char :=
  squeezeSpaces (l.map (fun c => if isWsChar c then ' ' else c))

/-- JS `trim()` on a character list. -/
def trimChars (l : List Char) : List Char :=
  ((l.dropWhile isWsChar).reverse.dropWhile isWsChar).reverse

/-- JS `String.prototype.trim`. -/
def jsTrim (s : String) : String := ofChars (trimChars s.data)

/-- JS `s.replace(/\s+/g, ' ')`. -/
def jsCollapseWs (s : String) : String := ofChars (collapseWsChars s.data)

/-- Is `pat` a prefix of `l` (decidable, executable)? -/
def seqIsPrefixB : List Char → List Char → Bool
  | [], _ => true
  | _ :: _, [] => false
  | p :: ps, c :: cs => p = c && seqIsPrefixB ps cs

/-- Does `l` contain `pat` as a contiguous subsequence
(JS `String.prototype.includes`)? -/
def seqContainsB (pat : List Char) : List Char → Bool
  | [] => seqIsPrefixB pat []
  | c :: cs => seqIsPrefixB pat (c :: cs) || seqContainsB pat cs

/-- JS `hay.includes(needle)`. -/
def jsIncludes (hay needle : String) : Bool := seqContainsB needle.data hay.data

/-- JS `s.startsWith(p)`. -/
def jsStartsWith (s p : String) : Bool := seqIsPrefixB p.data s.data

/-- JS `s.endsWith(p)`. -/
def jsEndsWith (s p : String) : Bool := seqIsPrefixB p.data.reverse s.data.reverse

/-- JS `s.toLowerCase()` (ASCII). -/
def jsToLower (s : String) : String := ofChars (lowerChars s.data)

/-- JS `s.split(sep).filter(Boolean)` for a single-space separator:
the word list of a space-collapsed string. -/
def splitSpaces (l : List Char) : List (List Char) :=
  (l.splitOn ' ').filter (· ≠ [])

/-- The word list of a JS string after `replace(/\s+/g,' ').trim()`
followed by `split(' ').filter(Boolean)`. -/
def jsWords (s : String) : List String :=
  (splitSpaces (trimChars (collapseWsChars s.data))).map ofChars

/-! ## `src/lib/utils.js` -/

/-- Embeds `estimateTokens(text)`: `0` for an empty (falsy) string, else
`Math.ceil(text.length / 4)`. -/
def estimateTokens (text : String) : Nat :=
  if text.data = [] then 0 else (text.data.length + 3) / 4

/-- Embeds `trimToTokenBudget(text, budgetTokens)`: cap at `budgetTokens * 4`
characters, appending `...` after `slice(0, Math.max(0, maxChars - 3))`
when over budget. -/
def trimToTokenBudget (text : String) (budgetTokens : Nat) : String :=
  if text.data = [] then "" else
  let maxChars := budgetTokens * 4
  if text.data.length ≤ maxChars then text
  else ofChars (text.data.take (maxChars - 3) ++ ['.', '.', '.'])

/-- Embeds `trimToCharBudget(text, maxChars)`. -/
def trimToCharBudget (text : String) (maxChars : Nat) : String :=
  if text.data = [] then "" else
  if text.data.length ≤ maxChars then text
  else ofChars (text.data.take (maxChars - 3) ++ ['.', '.', '.'])

/-- Loop body of `trimFactsToBudget`: keep facts while the running token
total stays within budget; stop at the first fact that would overflow. -/
def trimFactsGo (budgetTokens : Nat) : List String → Nat → List String
  | [], _ => []
  | f :: rest, used =>
    let tokens := estimateTokens f
    if budgetTokens < used + tokens then []
    else f :: trimFactsGo budgetTokens rest (used + tokens)

/-- Embeds `trimFactsToBudget(facts, budgetTokens)` (facts already strings, as
`String(fact)` produces). -/
def trimFactsToBudget (facts : List String) (budgetTokens : Nat) : List String :=
  if facts = [] then [] else trimFactsGo budgetTokens facts 0

/-! ## Data model: conversation records (`storage.js` record layout) -/

/-- One entry of `record.raw_messages`. -/
structure RawMsg where
  role : String
  content : String
  ts : Nat
  message_id : Option String := none
  polished : Bool := false
deriving DecidableEq, Repr

/-- A role-tagged prompt message sent to the inference collaborator. -/
structure Msg where
  role : String
  content : String
deriving DecidableEq, Repr

/-- A web source `{title, url, summary}` (absent summary = `""`). -/
structure Source where
  title : String
  url : String
  summary : String
deriving DecidableEq, Repr

/-- One `record.idempotency[messageId]` entry. `sources` is `none` when
the stored field is not an array (the reader re-checks `Array.isArray`). -/
structure IdemEntry where
  answer : String
  ts : Nat
  sources : Option (List Source)
  polished : Bool
deriving DecidableEq, Repr

/-- The persisted per-(owner, conversation) record. -/
structure ChatRecord where
  user_id : String
  chat_id : String
  title : String
  topic : String
  summary : String
  facts : List String
  last_updated_ts : Nat
  last_message_ts : Nat
  last_summary_ts : Nat
  last_topic_ts : Nat
  raw_messages : List RawMsg
  idempotency : List (String × IdemEntry)
deriving DecidableEq, Repr

/-- Assoc-list lookup for the idempotency index. -/
def lookupIdem (idx : List (String × IdemEntry)) (key : String) : Option IdemEntry :=
  (idx.find? (fun p => p.1 = key)).map (·.2)

/-- Assoc-list upsert for the idempotency index
(`record.idempotency[messageId] = entry`). -/
def setIdem (idx : List (String × IdemEntry)) (key : String) (e : IdemEntry) :
    List (String × IdemEntry) :=
  if (idx.find? (fun p => p.1 = key)).isSome then
    idx.map (fun p => if p.1 = key then (key, e) else p)
  else idx ++ [(key, e)]

/-- The fresh record created by `FileStore.getOrCreateChat` when none exists. -/
def freshRecord (userId chatId : String) : ChatRecord :=
  { user_id := userId, chat_id := chatId, title := "", topic := "", summary := ""
    facts := [], last_updated_ts := 0, last_message_ts := 0, last_summary_ts := 0
    last_topic_ts := 0, raw_messages := [], idempotency := [] }

/-! ## `lib/memory.js`: memory block, token budgets, prompt assembly -/

/-- Embeds `buildMemoryBlock(summary, facts, budgets)`. -/
def buildMemoryBlock (summary : String) (facts : List String)
    (summaryBudget factsBudget : Nat) : String :=
  let trimmedSummary := trimToTokenBudget summary summaryBudget
  let trimmedFacts := trimFactsToBudget facts factsBudget
  let parts :=
    (if trimmedSummary ≠ "" then ["Summary:\n" ++ trimmedSummary] else []) ++
    (if trimmedFacts ≠ [] then ["Facts:\n- " ++ String.intercalate "\n- " trimmedFacts] else [])
  String.intercalate "\n\n" parts

/-- Loop body of `applyTokenBudget` after the first (newest) message has
been accepted: walking further toward older messages, keep while the
running token total fits, stop at the first overflow.  The input list is
newest-first (the JS loop walks indices downward). -/
def collectBudget (budgetTokens : Nat) : List RawMsg → Nat → List RawMsg
  | [], _ => []
  | m :: rest, used =>
    let tokens := estimateTokens m.content
    if budgetTokens < used + tokens then []
    else m :: collectBudget budgetTokens rest (used + tokens)

/-- Embeds `applyTokenBudget(messages, budgetTokens)`: select a maximal suffix of
`messages` fitting the budget, walking newest-first; if even the newest
message overflows, keep it alone truncated to the budget with an
ellipsis.  Result is in chronological order (the JS `selected.reverse()`). -/
def applyTokenBudget (messages : List RawMsg) (budgetTokens : Nat) : List RawMsg :=
  if budgetTokens = 0 then [] else
  match messages.reverse with
  | [] => []
  | newest :: older =>
    let tokens := estimateTokens newest.content
    if budgetTokens < tokens then
      let available := max 1 budgetTokens
      [{ newest with content := trimToTokenBudget newest.content available }]
    else (newest :: collectBudget budgetTokens older tokens).reverse

/-- JS `list.slice(-n)` for `n > 0`: the last `n` elements. -/
def sliceLast (l : List RawMsg) (n : Nat) : List RawMsg := l.drop (l.length - n)

/-- The filter applied by `selectRecentUserMessages`:
`message && message.role === 'user' && message.content`. -/
def isUserWithContent (m : RawMsg) : Bool := m.role = "user" && m.content ≠ ""

/-- Embeds `selectRecentUserMessages(rawMessages, recentUserCount, recentTokenBudget)`. -/
def selectRecentUserMessages (rawMessages : List RawMsg)
    (recentUserCount recentTokenBudget : Nat) : List RawMsg :=
  if recentUserCount = 0 then [] else
  let userMessages := rawMessages.filter isUserWithContent
  applyTokenBudget (sliceLast userMessages recentUserCount) recentTokenBudget

/-- The three per-section token budgets passed by `handleChat`. -/
structure Budgets where
  summary : Nat
  facts : Nat
  recent : Nat
deriving DecidableEq, Repr

/-- Embeds `buildPromptMessages({systemPrompt, summary, facts, rawMessages,
newPrompt, budgets, recentTurns})`. -/
def buildPromptMessages (systemPrompt summary : String) (facts : List String)
    (rawMessages : List RawMsg) (newPrompt : String) (budgets : Budgets)
    (recentTurns : Nat) : List Msg :=
  let memoryBlock := buildMemoryBlock summary facts budgets.summary budgets.facts
  let head : List Msg :=
    [⟨"system", systemPrompt⟩] ++ (if memoryBlock ≠ "" then [⟨"system", memoryBlock⟩] else [])
  let recentUserCount := recentTurns - 1
  let recent := selectRecentUserMessages rawMessages recentUserCount budgets.recent
  head ++ recent.map (fun m => ⟨m.role, m.content⟩) ++ [⟨"user", newPrompt⟩]

/-- Embeds `shouldUpdateMemory({turnsSinceSummary, tokensSinceSummary, config})`. -/
def shouldUpdateMemory (turnsSinceSummary tokensSinceSummary : Nat)
    (summaryEveryNTurns summaryTokenThreshold : Nat) : Bool :=
  summaryEveryNTurns ≤ turnsSinceSummary || summaryTokenThreshold ≤ tokensSinceSummary

/-- A JSON value as observed by the structural-validation checks
(`typeof x === 'string'`, `Array.isArray(x)`):  a string, an array
(whose elements are retained through `String(e)` as strings), an absent
field, or any other JSON value. -/
inductive JVal where
  | jstr (s : String)
  | jarr (xs : List String)
  | jabsent
  | jother
deriving DecidableEq, Repr

/-- The `{summary, facts}` object extracted by `extractJson` from the
memory-curator response (`none` = no JSON object could be extracted). -/
structure MemObj where
  summary : JVal
  facts : JVal
deriving DecidableEq, Repr

/-- Tail of `updateMemory(...)` (after the inference call): structural
validation and per-section trimming.  Returns `none` (JS `null`) when
`parsed` is missing, `parsed.summary` is not a string, or `parsed.facts`
is not an array. -/
def updateMemoryResult (parsed : Option MemObj) (summaryBudget factsBudget : Nat) :
    Option (String × List String) :=
  match parsed with
  | none => none
  | some p =>
    match p.summary, p.facts with
    | .jstr s, .jarr xs =>
      some (trimToTokenBudget s summaryBudget, trimFactsToBudget xs factsBudget)
    | _, _ => none

/-- Embeds `getLastSummaryTs(record)` from the gateway server. -/
def getLastSummaryTs (record : ChatRecord) : Nat :=
  if 0 < record.last_summary_ts then record.last_summary_ts
  else if record.last_message_ts = 0 then record.last_updated_ts
  else 0

/-- The slice of the server `config` consulted by the turn handler. -/
structure Config where
  SYSTEM_PROMPT : String
  DEFAULT_MODEL_ID : String
  INFO_SEEKING_MODEL_ID : String
  TITLE_MODEL_ID : String
  TOPIC_MODEL_ID : String
  TOPIC_MAX_WORDS : Nat
  TITLE_MAX_CHARS : Nat
  RECENT_TURNS : Nat
  SUMMARY_EVERY_N_TURNS : Nat
  SUMMARY_TOKEN_BUDGET : Nat
  FACTS_TOKEN_BUDGET : Nat
  RECENT_TOKEN_BUDGET : Nat
  MEMORY_UPDATE_INPUT_TOKENS : Nat
  SUMMARY_TOKEN_THRESHOLD : Nat
  WEB_AGENT_URL : String
deriving DecidableEq, Repr

/-- Trigger computation of `maybeUpdateMemory(record, now, modelId,
timeoutMs)`: messages since the last summary anchor, their user-turn
count and token estimate, fed to `shouldUpdateMemory`. -/
def memoryUpdateDue (cfg : Config) (record : ChatRecord) : Bool :=
  let summaryAnchor := getLastSummaryTs record
  let messagesSince := record.raw_messages.filter (fun m => summaryAnchor < m.ts)
  let turnsSince := (messagesSince.filter (fun m => m.role = "user")).length
  let tokensSince :=
    estimateTokens (String.intercalate "\n" (messagesSince.map (·.content)))
  shouldUpdateMemory turnsSince tokensSince
    cfg.SUMMARY_EVERY_N_TURNS cfg.SUMMARY_TOKEN_THRESHOLD

/-- Embeds `maybeUpdateMemory(record, now, modelId, timeoutMs)`: when a
summarization is due, apply the (validated) structured update or leave
the record untouched.  `outcome` is the inference collaborator's reply
for the `updateMemory` call: `Except.error` for a thrown call, otherwise
the extracted `{summary, facts}` object. -/
def maybeUpdateMemoryM (cfg : Config) (record : ChatRecord) (now : Nat)
    (outcome : Except Unit (Option MemObj)) : ChatRecord :=
  if memoryUpdateDue cfg record then
    match outcome with
    | .error _ => record
    | .ok parsed =>
      match updateMemoryResult parsed cfg.SUMMARY_TOKEN_BUDGET cfg.FACTS_TOKEN_BUDGET with
      | none => record
      | some (s, f) =>
        { record with summary := s, facts := f, last_summary_ts := now }
  else record

/-! ## Routing decision engine (gateway server) -/

/-- The fixed phrase set of `isExplicitSearchRequest`. -/
def explicitSearchPhrases : List String :=
  ["search online", "search online about", "search the web", "web search",
   "search about", "search for", "help me search", "find online",
   "find the url of", "find the url", "find url", "get the url",
   "share the url", "source url", "look it up", "look up",
   "browse the web", "browse web", "google", "bing", "brave search",
   "list sources", "show sources", "give me sources", "give sources"]

/-- Embeds `isExplicitSearchRequest(value)`. -/
def isExplicitSearchRequest (value : String) : Bool :=
  let text := jsToLower value
  if jsTrim text = "" then false
  else explicitSearchPhrases.any (fun phrase => jsIncludes text phrase)

/-- The normalization inside `isConversationalPrompt`:
`toLowerCase().replace(/[^\w\s?']/g, ' ').replace(/\s+/g, ' ').trim()`. -/
def conversationalNormalize (text : String) : String :=
  let kept := (lowerChars text.data).map
    (fun c => if isWordChar c || isWsChar c || c = '?' || c = '\x27' then c else ' ')
  ofChars (trimChars (collapseWsChars kept))

/-- The conversational phrase set of `isConversationalPrompt`. -/
def conversationalPhrases : List String :=
  ["how about you", "what about you", "and you", "how are you", "who are you",
   "what are you", "what can you do", "what do you do", "tell me more",
   "tell me more about you", "tell me about yourself", "introduce yourself",
   "who made you", "who built you", "who created you", "who trained you",
   "are you real", "are you human", "your name", "are you there", "you there",
   "can you hear me", "can you see me", "are you listening", "thanks",
   "thank you", "thx", "ty", "hi", "hello", "hey", "sup", "yo",
   "good morning", "good evening", "good night", "good afternoon",
   "nice to meet you", "bye", "goodbye", "see you", "see ya", "later", "gn"]

/-- The short-reply set of `isConversationalPrompt`. -/
def conversationalShortReplies : List String :=
  ["ok", "okay", "sure", "cool", "great", "nice", "fine", "alright",
   "thanks", "thank you", "np", "k"]

/-- Embeds `isConversationalPrompt(text)`. -/
def isConversationalPrompt (text : String) : Bool :=
  let normalized := conversationalNormalize text
  if normalized = "" then false
  else if conversationalPhrases.any (fun phrase =>
      normalized = phrase ||
      jsStartsWith normalized (phrase ++ " ") ||
      jsEndsWith normalized (" " ++ phrase) ||
      jsIncludes normalized (" " ++ phrase ++ " ")) then true
  else if normalized.data.length ≤ 12 && conversationalShortReplies.contains normalized then
    true
  else false

/-- The trigger phrase set of `isInformationSeekingPromptHeuristic`. -/
def infoSeekingTriggers : List String :=
  ["what", "why", "how", "when", "where", "who", "which", "explain", "define",
   "definition", "meaning", "guide", "steps", "tutorial", "help me", "show me",
   "tell me", "find", "search", "lookup", "look up", "compare", "recommend",
   "best", "top", "list", "latest", "current", "price", "cost", "schedule",
   "release", "deadline", "policy", "law", "regulation", "version", "api",
   "docs", "weather", "forecast", "temperature", "rain", "snow", "wind",
   "air quality"]

/-- The emotional phrase set of `isInformationSeekingPromptHeuristic`. -/
def emotionalPhrases : List String :=
  ["i like", "i love", "i hate", "i dislike", "i feel", "i\x27m", "im ", "i am",
   "i enjoy", "i prefer", "my favorite", "i dont like", "i don\x27t like",
   "i am sad", "i am happy", "i am upset", "i am worried", "i am excited",
   "i feel sad", "i feel happy", "i feel upset", "i feel worried"]

/-- Embeds `isInformationSeekingPromptHeuristic(value)`: the deterministic lexical
fallback classifier. -/
def isInformationSeekingPromptHeuristic (value : String) : Bool :=
  let text := jsTrim (jsToLower value)
  if text = "" then false
  else if isConversationalPrompt text then false
  else
    let explicit := isExplicitSearchRequest text
    let hasQuestion := jsIncludes text "?"
    let hasTrigger := infoSeekingTriggers.any (fun phrase => jsIncludes text phrase)
    if explicit || hasQuestion || hasTrigger then true
    else if emotionalPhrases.any (fun phrase => jsIncludes text phrase) then false
    else if jsStartsWith text "i " || jsStartsWith text "i\x27m" || jsStartsWith text "im " then
      false
    else false

/-- The classifier's JSON reply as seen after `extractJson`: each field is
`some v` exactly when present with the type the source checks for
(`typeof ... === 'boolean' / 'number' / 'string'`), `none` otherwise. -/
structure ClassJson where
  info_seeking : Option Bool
  needs_web : Option Bool
  confidence : Option Rat
  reason : Option String
deriving DecidableEq, Repr

/-- The routing result shape produced by `determineInfoSeeking`. -/
structure RouteResult where
  infoSeeking : Bool
  needsWeb : Bool
  confidence : Rat
  reason : String
  source : String
deriving DecidableEq, Repr

/-- The seed `trimToCharBudget(String(prompt).replace(/\s+/g,' ').trim(), 400)`
computed by `determineInfoSeeking`. -/
def infoSeekingSeed (prompt : String) : String :=
  trimToCharBudget (jsTrim (jsCollapseWs prompt)) 400

/-- Embeds `determineInfoSeeking({prompt, modelId})`.  `resp` is the classifier
call's outcome: `Except.error` when the call threw (timeout, HTTP error),
otherwise the JSON object extracted from the reply (`none` when
`extractJson` found no object). -/
def determineInfoSeeking (prompt : String) (resp : Except Unit (Option ClassJson)) :
    RouteResult :=
  let fallbackInfo := isInformationSeekingPromptHeuristic prompt
  let fallback : RouteResult :=
    ⟨fallbackInfo, fallbackInfo, (1 : Rat)/2, "heuristic", "heuristic"⟩
  if infoSeekingSeed prompt = "" then
    { fallback with infoSeeking := false, needsWeb := false }
  else
    match resp with
    | .error _ => fallback
    | .ok none => fallback
    | .ok (some parsed) =>
      let infoSeeking :=
        match parsed.info_seeking with
        | some b => b
        | none =>
          match parsed.needs_web with
          | some b => b
          | none => fallback.infoSeeking
      let needsWeb := parsed.needs_web.getD infoSeeking
      let confidence := min 1 (max 0 (parsed.confidence.getD fallback.confidence))
      let reason :=
        match parsed.reason with
        | some r => if jsTrim r ≠ "" then jsTrim r else "classifier"
        | none => "classifier"
      ⟨infoSeeking, needsWeb, confidence, reason, "llm"⟩

/-- The web decision `{use, reasons}` computed at the top of `handleChat`
from the parsed override, the explicit-search heuristic and the
classifier route. -/
structure WebDecision where
  use : Bool
  reasons : List String
deriving DecidableEq, Repr

/-- Lines 199–215 of `handleChat`: `explicitSearch`, `shouldUseWeb` and
`webReason` from the prompt, the parsed client override, and the
classifier outcome. -/
def turnWebDecision (prompt : String) (override : Bool)
    (resp : Except Unit (Option ClassJson)) : WebDecision :=
  let explicitSearch := isExplicitSearchRequest prompt
  let route := determineInfoSeeking prompt resp
  let shouldUseWeb := override && (explicitSearch || route.needsWeb || route.infoSeeking)
  let webReason :=
    if override then
      if shouldUseWeb then
        if explicitSearch then "explicit_search"
        else if route.reason ≠ "" then route.reason else "classifier"
      else "non_info_prompt"
    else "client_override_off"
  ⟨shouldUseWeb, [webReason]⟩

/-! ## Prompt injection helpers (gateway server) -/

/-- Embeds `injectTopicIntoMessages(messages, topic)`: splice a topic system line
at index 1, or index 2 when slot 1 is already a system message (the
memory block). -/
def injectTopicIntoMessages (messages : List Msg) (topic : String) : List Msg :=
  if topic = "" || messages = [] then messages
  else
    let topicLine : Msg := ⟨"system", "Current chat topic: " ++ topic⟩
    let insertAt :=
      match messages[1]? with
      | some m => if m.role = "system" then 2 else 1
      | none => 1
    messages.take insertAt ++ [topicLine] ++ messages.drop insertAt

/-- The common shape of the hint injectors:
`output = messages.slice(0, -1); output.push(inserted); if (last) output.push(last)`. -/
def spliceBeforeLast (messages : List Msg) (inserted : Msg) : List Msg :=
  match messages.getLast? with
  | none => [inserted]
  | some last => messages.dropLast ++ [inserted, last]

/-- The system hint injected by `injectNonInfoHint`. -/
def nonInfoHintText : String :=
  "The user prompt is conversational/emotional and not information-seeking. " ++
  "Respond naturally and empathetically. Do not provide list-style or search-style answers. " ++
  "Do not mention web search unless asked."

/-- Embeds `injectNonInfoHint(messages, infoSeeking)`. -/
def injectNonInfoHint (messages : List Msg) (infoSeeking : Bool) : List Msg :=
  if infoSeeking || messages = [] then messages
  else spliceBeforeLast messages ⟨"system", nonInfoHintText⟩

/-- Embeds `buildSourcesContext(sources)`: numbered source list over the sources
that carry a (truthy) url. -/
def buildSourcesContext (sources : List Source) : String :=
  let withUrl := sources.filter (fun s => s.url ≠ "")
  String.intercalate "\n\n" (withUrl.enum.map (fun p =>
    let title := if p.2.title ≠ "" then p.2.title else "Untitled"
    let parts := ["[" ++ toString (p.1 + 1) ++ "] " ++ title, "URL: " ++ p.2.url] ++
      (if p.2.summary ≠ "" then ["Summary: " ++ p.2.summary] else [])
    String.intercalate "\n" parts))

/-- The non-information-seeking hint of `injectSourcesIntoMessages`. -/
def sourcesNonInfoHintText : String :=
  "The user prompt is not information-seeking. Respond naturally and empathetically. " ++
  "Do not mention web sources unless the user asked for them."

/-- The source-usage system message of `injectSourcesIntoMessages`
(mode-dependent lead line plus the fixed hints and the numbered list). -/
def sourcesSystemText (explicitSearch : Bool) (context : String) : String :=
  let modeHint :=
    if explicitSearch then
      "User explicitly requested web search results. Provide a concise summary of the sources."
    else
      "User did not explicitly ask for search results. Provide your own answer and use sources only to improve factual accuracy."
  let relevanceHint :=
    "If the sources do not help answer a factual question, say you do not know."
  let emotionalHint :=
    "If the user prompt is emotional or not information-seeking, respond empathetically and you may ignore the sources."
  let citationHint :=
    "When you use sources, cite them with plain URLs in parentheses."
  modeHint ++ "\n" ++ relevanceHint ++ "\n" ++ emotionalHint ++ "\n" ++ citationHint ++
    "\n\nWeb sources summary:\n" ++ context

/-- Embeds `injectSourcesIntoMessages(messages, sources, userPrompt, infoSeekingOverride)`. -/
def injectSourcesIntoMessages (messages : List Msg) (sources : List Source)
    (userPrompt : String) (infoSeekingOverride : Option Bool) : List Msg :=
  if messages = [] then messages
  else if sources = [] then messages
  else
    let context := buildSourcesContext sources
    if context = "" then messages
    else
      let explicitSearch := isExplicitSearchRequest userPrompt
      let infoSeeking :=
        infoSeekingOverride.getD (isInformationSeekingPromptHeuristic userPrompt)
      if !explicitSearch && !infoSeeking then
        spliceBeforeLast messages ⟨"system", sourcesNonInfoHintText⟩
      else
        spliceBeforeLast messages ⟨"system", sourcesSystemText explicitSearch context⟩

/-! ## Text helpers for search query, title and topic generation -/

/-- Quote characters stripped by `replace(/^["'“”]+|["'“”]+$/g, '')`. -/
def isQuoteChar (c : Char) : Bool := c = '"' || c = '\x27' || c = '“' || c = '”'

/-- Strip leading and trailing quote characters. -/
def stripQuotes (s : String) : String :=
  ofChars (((s.data.dropWhile isQuoteChar).reverse.dropWhile isQuoteChar).reverse)

/-- Strip trailing `[.?!]+`. -/
def stripTrailPunct (s : String) : String :=
  ofChars ((s.data.reverse.dropWhile (fun c => c = '.' || c = '?' || c = '!')).reverse)

/-- Embeds `trimQueryWords(value, maxWords)`. -/
def trimQueryWords (value : String) (maxWords : Nat) : String :=
  let text := jsTrim (jsCollapseWs value)
  if text = "" then "" else
  let words := jsWords text
  if words.length ≤ maxWords then text
  else String.intercalate " " (words.take (max 1 maxWords))

/-- Embeds `limitWords(value, maxWords)` (`maxWords = 0` plays the JS
non-finite/non-positive case: no limiting). -/
def limitWords (value : String) (maxWords : Nat) : String :=
  let text := jsTrim (jsCollapseWs value)
  if text = "" then "" else
  if maxWords = 0 then text
  else String.intercalate " " ((jsWords text).take maxWords)

/-- Embeds `trimWords(value, maxWords)` (same JS shape as `limitWords`). -/
def trimWords (value : String) (maxWords : Nat) : String :=
  let text := jsTrim (jsCollapseWs value)
  if text = "" then "" else
  if maxWords = 0 then text
  else String.intercalate " " ((jsWords text).take maxWords)

/-- Embeds `QUERY_MAX_WORDS` from the gateway server. -/
def QUERY_MAX_WORDS : Nat := 10

/-- Embeds `normalizeSearchQuery(value)`: first line, quotes and trailing
punctuation stripped, capped at `QUERY_MAX_WORDS` words. -/
def normalizeSearchQuery (value : String) : String :=
  let text := jsTrim value
  if text = "" then "" else
  let firstLine := jsTrim (ofChars (text.data.takeWhile (· ≠ '\n')))
  let cleaned := jsTrim (stripTrailPunct (stripQuotes firstLine))
  trimQueryWords cleaned QUERY_MAX_WORDS

/-- Embeds `fallbackSearchQuery(prompt)`. -/
def fallbackSearchQuery (prompt : String) : String :=
  trimQueryWords (trimToCharBudget (jsTrim (jsCollapseWs prompt)) 200) QUERY_MAX_WORDS

/-- Embeds `normalizeForCompare(value)` (shared by title and polish comparison). -/
def normalizeForCompare (value : String) : String :=
  let kept := (lowerChars value.data).map
    (fun c => if isWordChar c || isWsChar c || c = '\x27' || c = '-' then c else ' ')
  ofChars (trimChars (collapseWsChars kept))

/-- Embeds `stripTrailingThink(value, seed)`. -/
def stripTrailingThink (value seed : String) : String :=
  let text := jsTrim value
  if text = "" then "" else
  let words := jsWords text
  match words.getLast? with
  | none => ""
  | some w =>
    let last := jsToLower w
    if last ≠ "think" && last ≠ "thinking" then text
    else
      let promptNorm := normalizeForCompare seed
      if jsIncludes promptNorm last then text
      else jsTrim (String.intercalate " " words.dropLast)

/-- Embeds `isTooSimilarTitle(title, prompt)` (the same comparison is
`isTooSimilarTopic` in `topic.js`). -/
def isTooSimilarTitle (title prompt : String) : Bool :=
  let a := normalizeForCompare title
  let b := normalizeForCompare prompt
  if a = "" || b = "" then false
  else if a = b then true
  else if jsIncludes b a && 8 ≤ a.data.length then true
  else false

/-- The anchored lead patterns of `stripPromptLead` /
`stripPromptLeadCase`, each regex alternation expanded in regex
(leftmost, greedy-optional-group) match order. -/
def stripLeadAlternatives : List (List String) :=
  [["please"],
   ["do you know about", "do you know", "do you remember", "do you have info on"],
   ["tell me about", "tell me", "explain"],
   ["what is", "who is", "where is", "when is", "why is", "how is", "how to",
    "how do i", "how do you"],
   ["can you", "could you", "would you", "will you"],
   ["find me", "find", "search for", "search", "look up"],
   ["give me", "list", "show me"]]

/-- Apply one anchored pattern `^(alt1|alt2|…)\s+` case-insensitively:
drop the matched alternative plus the following space, then trim.  The
input is already whitespace-collapsed, so `\s+` is a single space. -/
def applyStripPattern (alts : List String) (text : List Char) : List Char :=
  match alts.find? (fun alt => seqIsPrefixB (alt.data ++ [' ']) (lowerChars text)) with
  | some alt => trimChars (text.drop (alt.data.length + 1))
  | none => text

/-- Embeds `stripPromptLeadCase(text)` (also `stripPromptLead`, whose input is
already lower-cased). -/
def stripPromptLeadCase (text : String) : String :=
  ofChars (stripLeadAlternatives.foldl (fun acc alts => applyStripPattern alts acc)
    (trimChars text.data))

/-- Embeds `normalizeTitleSeed(prompt)`: keep `[\w\s'-]` (case preserved),
collapse whitespace, trim, then strip a question/command lead. -/
def normalizeTitleSeed (prompt : String) : String :=
  let kept := prompt.data.map
    (fun c => if isWordChar c || isWsChar c || c = '\x27' || c = '-' then c else ' ')
  let cleaned := ofChars (trimChars (collapseWsChars kept))
  if cleaned = "" then ""
  else
    let stripped := stripPromptLeadCase cleaned
    if stripped ≠ "" then stripped else cleaned

/-- Embeds `normalizePromptSeed(prompt)`: the lower-cased variant used by the
topic fallback. -/
def normalizePromptSeed (prompt : String) : String :=
  let kept := (lowerChars prompt.data).map
    (fun c => if isWordChar c || isWsChar c || c = '\x27' || c = '-' then c else ' ')
  let cleaned := ofChars (trimChars (collapseWsChars kept))
  if cleaned = "" then ""
  else
    let stripped := stripPromptLeadCase cleaned
    if stripped ≠ "" then stripped else cleaned

/-- Embeds `fallbackTitleFromPrompt(prompt)` (uses `config.TITLE_MAX_CHARS`). -/
def fallbackTitleFromPrompt (cfg : Config) (prompt : String) : String :=
  let cleaned := normalizeTitleSeed prompt
  if cleaned = "" then ""
  else trimToCharBudget (String.intercalate " " ((jsWords cleaned).take 8)) cfg.TITLE_MAX_CHARS

/-- Embeds `fallbackTopicFromPrompt(prompt, currentTopic, maxWords)`. -/
def fallbackTopicFromPrompt (prompt currentTopic : String) (maxWords : Nat) : String :=
  let cleaned := normalizePromptSeed prompt
  if cleaned = "" then currentTopic
  else if isConversationalPrompt cleaned then currentTopic
  else
    let words := jsWords cleaned
    if words.length ≤ 2 && currentTopic ≠ "" then currentTopic
    else String.intercalate " " (words.take (if maxWords = 0 then 6 else max 1 maxWords))

/-- Embeds `summarizePrompt(value, maxChars)`. -/
def summarizePrompt (value : String) (maxChars : Nat) : String :=
  trimToCharBudget (jsTrim (jsCollapseWs value)) (if maxChars = 0 then 120 else maxChars)

/-- Embeds `sanitizeTopic(value, maxWords)` from `topic.js`. -/
def sanitizeTopic (value : String) (maxWords : Nat) : String :=
  if value = "" then "" else
  let cleaned := stripQuotes (jsTrim (jsCollapseWs value))
  if cleaned = "" then "" else
  let words := jsWords cleaned
  let limited := String.intercalate " " (words.take (if maxWords = 0 then 5 else max 1 maxWords))
  trimToCharBudget (jsTrim (stripTrailPunct limited)) 80

/-- Embeds `getFirstUserPrompt(record, fallback)`. -/
def getFirstUserPrompt (record : ChatRecord) (fallback : String) : String :=
  match record.raw_messages.find? (fun m => m.role = "user" && m.content ≠ "") with
  | some m => m.content
  | none => fallback

/-- Embeds `collectRecentTopicMessages(record, fallbackPrompt, limit)`. -/
def collectRecentTopicMessages (record : ChatRecord) (fallbackPrompt : String)
    (limit : Nat) : List String :=
  let maxItems := max 1 limit
  let raw := record.raw_messages
  let recent := ((raw.drop (raw.length - maxItems)).map (fun m =>
    let role := if m.role = "assistant" then "assistant" else "user"
    let content := trimWords (jsTrim (jsCollapseWs m.content)) 20
    if content ≠ "" then role ++ ": " ++ content else "")).filter (· ≠ "")
  if recent ≠ [] then recent
  else
    let fb := jsTrim (jsCollapseWs fallbackPrompt)
    if fb ≠ "" then [fb] else []

/-! ## The turn handler `handleChat` (non-streaming path) and its
inference-call trace

Each invocation of `callOllamaChat` made while handling a turn is
recorded as an `InfCall`; its `queued` flag is `true` exactly when the
invocation executes under a `runHighLlm` admission of the global
single-concurrency queue (`lib/llm_queue.js`).  The classification call
inside `determineInfoSeeking` invokes `callOllamaChat` directly, so its
flag is `false`. -/

/-- The kinds of inference calls made while handling one turn. -/
inductive CallKind where
  | classification
  | searchQuery
  | chatCompletion
  | titleGen
  | titleRetry
  | topicGen
  | topicRetry
  | polish
  | memoryUpdate
deriving DecidableEq, Repr

/-- One `callOllamaChat` invocation and whether it ran under the
admission queue. -/
structure InfCall where
  kind : CallKind
  queued : Bool
deriving DecidableEq, Repr

/-- The calls made by `determineInfoSeeking`: one direct (unqueued)
classification call unless the seed is empty. -/
def classifierCalls (prompt : String) : List InfCall :=
  if infoSeekingSeed prompt = "" then [] else [⟨.classification, false⟩]

/-- Embeds `isNonEmptyString(value)` for a value known to be a string. -/
def isNonEmptyStringB (s : String) : Bool := jsTrim s ≠ ""

/-- Embeds `TITLE_MAX_WORDS` from the gateway server. -/
def TITLE_MAX_WORDS : Nat := 6

/-- Embeds `POLISH_MIN_CHARS` from the gateway server. -/
def POLISH_MIN_CHARS : Nat := 1500

/-- A validated `/api/chat` request after field validation and override
parsing: `model_id = ""` encodes an absent model id, and `override` is
the non-null result of `parseBooleanOverride` (a null override is
rejected with an error before any of the logic modelled here runs). -/
structure TurnRequest where
  user_id : String
  chat_id : String
  prompt : String
  message_id : String
  model_id : String
  client_ts : Option Nat
  override : Bool
deriving DecidableEq, Repr

instance {ε α : Type} [DecidableEq ε] [DecidableEq α] : DecidableEq (Except ε α) :=
  fun x y =>
    match x, y with
    | .error a, .error b =>
      if h : a = b then .isTrue (by rw [h])
      else .isFalse (fun hh => h (Except.error.inj hh))
    | .error _, .ok _ => .isFalse (fun h => Except.noConfusion h)
    | .ok _, .error _ => .isFalse (fun h => Except.noConfusion h)
    | .ok a, .ok b =>
      if h : a = b then .isTrue (by rw [h])
      else .isFalse (fun hh => h (Except.ok.inj hh))

/-- The collaborator replies and clock readings consumed by one
non-streaming turn.  LLM replies whose JSON structure the source
inspects are given post-`extractJson`; title/topic replies carry both
the extracted string field (when present with string type) and the raw
body (whose first line is the fallback). -/
structure Oracle where
  classifierResp : Except Unit (Option ClassJson)
  queryResp : Except Unit String
  webAgentSources : Except Unit (Option (List Source))
  answerResp : Except Unit String
  titleResp : Except Unit (Option String × String)
  titleRetryResp : Except Unit (Option String × String)
  topicResp : Except Unit (Option String × String)
  topicRetryResp : Except Unit (Option String × String)
  polishResp : Except Unit String
  memoryResp : Except Unit (Option MemObj)
  requestTs : Nat
  answerTs : Nat
  polishTs : Nat
deriving DecidableEq, Repr

/-- JS `s.split('\n')[0]`. -/
def jsFirstLine (s : String) : String := ofChars (s.data.takeWhile (· ≠ '\n'))

/-- The cleaning pipeline applied to a raw title inside `generateTitle`:
strip quotes, strip trailing punctuation, trim, cap at
`TITLE_MAX_WORDS` words, strip a dangling `think`/`thinking` token. -/
def cleanTitle (rawTitle seed : String) : String :=
  stripTrailingThink
    (limitWords (jsTrim (stripTrailPunct (stripQuotes rawTitle))) TITLE_MAX_WORDS) seed

/-- Embeds `generateTitle(prompt, modelId, timeoutMs)`: returns the generated
title (`""` when the call threw, which the caller's `catch` maps to an
empty `generated`) together with the inference calls made.  The whole
body runs inside one `runHighLlm` admission, so the retry call is also
`queued`. -/
def generateTitleM (cfg : Config) (prompt : String) (o : Oracle) :
    String × List InfCall :=
  let seed := summarizePrompt prompt 240
  match o.titleResp with
  | .error _ => ("", [⟨.titleGen, true⟩])
  | .ok (field, raw) =>
    let rawTitle := field.getD (jsFirstLine raw)
    let cleaned := cleanTitle rawTitle seed
    if cleaned = "" || isTooSimilarTitle cleaned seed then
      match o.titleRetryResp with
      | .error _ => ("", [⟨.titleGen, true⟩, ⟨.titleRetry, true⟩])
      | .ok (field2, raw2) =>
        let retryCleaned := cleanTitle (field2.getD (jsFirstLine raw2)) seed
        (if retryCleaned = "" then fallbackTitleFromPrompt cfg prompt
         else trimToCharBudget retryCleaned cfg.TITLE_MAX_CHARS,
         [⟨.titleGen, true⟩, ⟨.titleRetry, true⟩])
    else (trimToCharBudget cleaned cfg.TITLE_MAX_CHARS, [⟨.titleGen, true⟩])

/-- Embeds `generateTopic({...})` from `topic.js`: `Except.error` when a call
threw (the caller's `catch` keeps the current topic), otherwise
`(topic, changed)`.  `isTooSimilarTopic` is textually the same
comparison as `isTooSimilarTitle`. -/
def generateTopicM (modelId currentTopic : String) (recentPrompts : List String)
    (maxWords : Nat) (o : Oracle) : Except Unit (String × Bool) × List InfCall :=
  if modelId = "" then (.ok (currentTopic, false), [])
  else
    match o.topicResp with
    | .error _ => (.error (), [⟨.topicGen, true⟩])
    | .ok (field, raw) =>
      let topic := sanitizeTopic (field.getD (jsFirstLine raw)) maxWords
      let latestPrompt := (recentPrompts.getLast?).getD ""
      if topic = "" || isTooSimilarTitle topic latestPrompt then
        match o.topicRetryResp with
        | .error _ => (.error (), [⟨.topicGen, true⟩, ⟨.topicRetry, true⟩])
        | .ok (field2, raw2) =>
          let retryTopic := sanitizeTopic (field2.getD (jsFirstLine raw2)) maxWords
          (.ok (if retryTopic = "" then (currentTopic, false) else (retryTopic, true)),
           [⟨.topicGen, true⟩, ⟨.topicRetry, true⟩])
      else (.ok (topic, true), [⟨.topicGen, true⟩])

/-- Embeds `updateTopicAfterAnswer({record, prompt, messageTs, modelId})`. -/
def updateTopicAfterAnswerM (cfg : Config) (record : ChatRecord) (prompt : String)
    (messageTs : Nat) (modelId : String) (o : Oracle) : ChatRecord × List InfCall :=
  let currentTopic := record.topic
  let recentMessages := collectRecentTopicMessages record prompt 4
  let gen := generateTopicM modelId currentTopic recentMessages cfg.TOPIC_MAX_WORDS o
  let nextTopic :=
    match gen.1 with
    | .error _ => currentTopic
    | .ok (candidate, _) =>
      if candidate ≠ "" then
        if currentTopic ≠ "" &&
            jsToLower (jsTrim candidate) = jsToLower (jsTrim currentTopic) then
          currentTopic
        else candidate
      else currentTopic
  let nextTopic2 :=
    if nextTopic = "" then fallbackTopicFromPrompt prompt currentTopic cfg.TOPIC_MAX_WORDS
    else nextTopic
  ({ record with
      topic := if nextTopic2 ≠ "" then nextTopic2 else currentTopic,
      last_topic_ts := messageTs },
   gen.2)

/-- Embeds `updateTopicAndTitle({record, prompt, messageTs, modelId})`: generate
a title once per conversation (LLM with retry, then lexical fallback),
then regenerate the topic.  Model-id selection
(`TITLE_MODEL_ID`/`TOPIC_MODEL_ID` falling back to the turn's model)
only routes the external calls; for the topic it also gates the call
(`generateTopic` returns early on an empty model id). -/
def updateTopicAndTitleM (cfg : Config) (record : ChatRecord) (prompt : String)
    (messageTs : Nat) (modelId : String) (o : Oracle) : ChatRecord × List InfCall :=
  let safeModelId := if modelId ≠ "" then modelId else cfg.DEFAULT_MODEL_ID
  let topicModelId :=
    if isNonEmptyStringB cfg.TOPIC_MODEL_ID then cfg.TOPIC_MODEL_ID else safeModelId
  let step1 : ChatRecord × List InfCall :=
    if record.title = "" then
      let firstPrompt := getFirstUserPrompt record prompt
      if firstPrompt ≠ "" then
        let gen := generateTitleM cfg firstPrompt o
        if gen.1 = "" then
          let fallback := fallbackTitleFromPrompt cfg firstPrompt
          (if fallback ≠ "" then { record with title := fallback } else record, gen.2)
        else ({ record with title := gen.1 }, gen.2)
      else (record, [])
    else (record, [])
  let step2 := updateTopicAfterAnswerM cfg step1.1 prompt messageTs topicModelId o
  (step2.1, step1.2 ++ step2.2)

/-- Rewrite the most recent assistant message (the list arrives reversed). -/
def updateLastAssistantRev (cleaned : String) : List RawMsg → List RawMsg
  | [] => []
  | m :: rest =>
    if m.role = "assistant" then { m with content := cleaned, polished := true } :: rest
    else m :: updateLastAssistantRev cleaned rest

/-- The in-place rewrite of the most recent assistant message performed
by `maybePolishAnswer`. -/
def updateLastAssistant (msgs : List RawMsg) (cleaned : String) : List RawMsg :=
  (updateLastAssistantRev cleaned msgs.reverse).reverse

/-- The idempotency-entry rewrite performed by `maybePolishAnswer`. -/
def polishIdem (idx : List (String × IdemEntry)) (messageId cleaned : String) :
    List (String × IdemEntry) :=
  idx.map (fun p =>
    if p.1 = messageId then (p.1, { p.2 with answer := cleaned, polished := true }) else p)

/-- Embeds `maybePolishAnswer({record, answer, ..., messageId})`: polish long
answers; apply only when the polished text differs under
case/punctuation-insensitive comparison. -/
def maybePolishAnswerM (record : ChatRecord) (answer messageId : String)
    (o : Oracle) : ChatRecord × List InfCall :=
  if answer = "" then (record, []) else
  let trimmedAnswer := jsTrim answer
  if trimmedAnswer = "" then (record, []) else
  if trimmedAnswer.data.length < POLISH_MIN_CHARS then (record, []) else
  match o.polishResp with
  | .error _ => (record, [⟨.polish, true⟩])
  | .ok resp =>
    let cleaned := jsTrim resp
    if cleaned = "" then (record, [⟨.polish, true⟩])
    else if normalizeForCompare cleaned = normalizeForCompare trimmedAnswer then
      (record, [⟨.polish, true⟩])
    else
      let record1 := { record with raw_messages := updateLastAssistant record.raw_messages cleaned }
      let record2 :=
        if messageId ≠ "" && (lookupIdem record1.idempotency messageId).isSome then
          { record1 with idempotency := polishIdem record1.idempotency messageId cleaned }
        else record1
      ({ record2 with last_updated_ts := o.polishTs }, [⟨.polish, true⟩])

/-- Embeds `finalizeChatTurn({record, ...})` with `deferHeavy = true`: append the
user/assistant pair, bump the timestamps, write the idempotency entry. -/
def finalizeChatTurnM (record : ChatRecord) (prompt messageId : String)
    (messageTs : Nat) (answer : String) (answerTs : Nat)
    (sources : List Source) : ChatRecord :=
  { record with
      raw_messages := record.raw_messages ++
        [{ role := "user", content := prompt, ts := messageTs,
           message_id := some messageId, polished := false },
         { role := "assistant", content := answer, ts := answerTs,
           message_id := none, polished := false }],
      last_message_ts := messageTs,
      last_updated_ts := messageTs,
      idempotency := setIdem record.idempotency messageId
        ⟨answer, answerTs, some sources, false⟩ }

/-- Embeds `runPostAnswerUpdates({...})` as invoked by the non-streaming turn
paths (`skipMemory` false, no `emit`): title/topic, polish, then the
memory update. -/
def runPostAnswerUpdatesM (cfg : Config) (record : ChatRecord) (answer : String)
    (answerTs messageTs : Nat) (prompt modelId messageId : String) (o : Oracle) :
    ChatRecord × List InfCall :=
  let mts := if messageTs = 0 then answerTs else messageTs
  let step1 := updateTopicAndTitleM cfg record prompt mts modelId o
  let step2 := maybePolishAnswerM step1.1 answer messageId o
  let memoryCalls : List InfCall :=
    if memoryUpdateDue cfg step2.1 then [⟨.memoryUpdate, true⟩] else []
  let record3 := maybeUpdateMemoryM cfg step2.1 answerTs o.memoryResp
  (record3, step1.2 ++ step2.2 ++ memoryCalls)

/-- The client-visible outcome of one non-streaming turn.  The non-web
path's response carries no `sources` field; it is modelled as `[]`. -/
inductive TurnOutcome where
  | ok (answer : String) (sources : List Source) (topic : String)
  | err
deriving DecidableEq, Repr

/-- The result of one modelled turn: the response, the record as left in
the store, the messages submitted to the main inference call (empty when
no main call was made), and the trace of `callOllamaChat` invocations. -/
structure TurnResult where
  outcome : TurnOutcome
  record : ChatRecord
  sent : List Msg
  calls : List InfCall
deriving DecidableEq, Repr

/-- The non-streaming `handleChat` turn (`stream` falsy), transcribed
from routing through idempotency replay, prompt assembly, optional web
augmentation, the main inference call, finalization and the post-answer
pipeline.  `store` is the record on disk for `(user_id, chat_id)`
(`none` = no record yet, `getOrCreateChat` creates a fresh one). -/
def handleChatModel (cfg : Config) (req : TurnRequest) (store : Option ChatRecord)
    (o : Oracle) : TurnResult :=
  let localModelId := if req.model_id ≠ "" then req.model_id else cfg.DEFAULT_MODEL_ID
  let route := determineInfoSeeking req.prompt o.classifierResp
  let routeCalls := classifierCalls req.prompt
  let infoSeeking := route.infoSeeking
  let wd := turnWebDecision req.prompt req.override o.classifierResp
  let record := store.getD (freshRecord req.user_id req.chat_id)
  match lookupIdem record.idempotency req.message_id with
  | some cached =>
    { outcome := .ok cached.answer (cached.sources.getD []) record.topic,
      record := record, sent := [], calls := routeCalls }
  | none =>
    let messageTs := req.client_ts.getD o.requestTs
    let budgets : Budgets :=
      ⟨cfg.SUMMARY_TOKEN_BUDGET, cfg.FACTS_TOKEN_BUDGET, cfg.RECENT_TOKEN_BUDGET⟩
    let base := buildPromptMessages cfg.SYSTEM_PROMPT record.summary record.facts
      record.raw_messages req.prompt budgets cfg.RECENT_TURNS
    let localPromptMessages :=
      injectNonInfoHint (injectTopicIntoMessages base record.topic) infoSeeking
    if wd.use then
      let queryCall : List InfCall := [⟨.searchQuery, true⟩]
      let sources :=
        if cfg.WEB_AGENT_URL = "" then []
        else
          match o.webAgentSources with
          | .ok s => s.getD []
          | .error _ => []
      let promptWithSources :=
        injectSourcesIntoMessages localPromptMessages sources req.prompt (some infoSeeking)
      match o.answerResp with
      | .error _ =>
        { outcome := .err, record := record, sent := promptWithSources,
          calls := routeCalls ++ queryCall ++ [⟨.chatCompletion, true⟩] }
      | .ok answer =>
        let record1 := finalizeChatTurnM record req.prompt req.message_id messageTs
          answer o.answerTs sources
        let post := runPostAnswerUpdatesM cfg record1 answer o.answerTs messageTs
          req.prompt localModelId req.message_id o
        { outcome := .ok answer sources record1.topic, record := post.1,
          sent := promptWithSources,
          calls := routeCalls ++ queryCall ++ [⟨.chatCompletion, true⟩] ++ post.2 }
    else
      match o.answerResp with
      | .error _ =>
        { outcome := .err, record := record, sent := localPromptMessages,
          calls := routeCalls ++ [⟨.chatCompletion, true⟩] }
      | .ok answer =>
        let record1 := finalizeChatTurnM record req.prompt req.message_id messageTs
          answer o.answerTs []
        let post := runPostAnswerUpdatesM cfg record1 answer o.answerTs messageTs
          req.prompt localModelId req.message_id o
        { outcome := .ok answer [] record1.topic, record := post.1,
          sent := localPromptMessages,
          calls := routeCalls ++ [⟨.chatCompletion, true⟩] ++ post.2 }

/-! ## `src/lib/locks.js`: the per-key serialization lock

`withChatLock(key, fn)` chains each caller on the key's stored promise:

* `previous = queues.get(key) || Promise.resolve()` — the caller's
  predecessor is whatever promise the map holds at arrival;
* `current` is a fresh promise resolved by `release()`;
* `queues.set(key, previous.then(() => current))` — the map stores a
  *derived* promise (`.then` returns a new object), not `current`;
* `await previous; try { await fn() } finally { release(); if
  (queues.get(key) === current) queues.delete(key) }`.

The model tracks each call's key, its predecessor (the call whose
promise the map held at arrival), and its status.  `fn` of call `c` can
start exactly when `c`'s predecessor has released, i.e. is `done`
(awaiting the stored chain of the predecessor resolves exactly when the
predecessor's `release()` ran, since a call only runs after its own
predecessors).  `finish c ok` covers both a normal return (`ok = true`)
and a thrown/rejected `fn` (`ok = false`): the `finally` block runs
identically.  Promise object identity is modelled by `PromiseRef`, so the
`queues.get(key) === current` comparison in the `finally` block is the
literal comparison of the stored reference with `.current c`. -/

/-- Status of one `withChatLock` caller. -/
inductive LStatus where
  | waiting
  | running
  | done
deriving DecidableEq, Repr

/-- A promise object created by call `c`: its bare `current` promise, or
the derived `previous.then(() => current)` promise stored in the map. -/
inductive PromiseRef where
  | current (c : Nat)
  | chain (c : Nat)
deriving DecidableEq, Repr

/-- The call the promise object belongs to. -/
def PromiseRef.callOf : PromiseRef → Nat
  | .current c => c
  | .chain c => c

/-- One `withChatLock` caller: its key, the call whose promise the map
held when it arrived (`none` = the map had no entry), and its status. -/
structure LCall where
  key : Nat
  prev : Option Nat
  status : LStatus
deriving DecidableEq, Repr

/-- The process-scoped lock state: all calls in arrival order (index =
call id) and the `queues` map. -/
structure LockState where
  calls : List LCall
  table : List (Nat × PromiseRef)
deriving DecidableEq, Repr

/-- Embeds `queues.get(key)` (JS `Map` keys are unique; association-list
lookup). -/
def lookupTable : List (Nat × PromiseRef) → Nat → Option PromiseRef
  | [], _ => none
  | p :: rest, k => if p.1 = k then some p.2 else lookupTable rest k

/-- Embeds `queues.set(key, r)`. -/
def setTable : List (Nat × PromiseRef) → Nat → PromiseRef → List (Nat × PromiseRef)
  | [], k, r => [(k, r)]
  | p :: rest, k, r => if p.1 = k then (k, r) :: rest else p :: setTable rest k r

/-- Embeds `queues.delete(key)`. -/
def removeTable : List (Nat × PromiseRef) → Nat → List (Nat × PromiseRef)
  | [], _ => []
  | p :: rest, k => if p.1 = k then removeTable rest k else p :: removeTable rest k

/-- Scheduler events: a new caller arrives for a key; a waiting caller's
`fn` begins; a running caller's `fn` settles (`ok` = returned normally,
`¬ok` = threw/rejected). -/
inductive LEv where
  | arrive (k : Nat)
  | start (c : Nat)
  | finish (c : Nat) (ok : Bool)
deriving DecidableEq, Repr

/-- Has call `c`'s predecessor released? (`await previous` has resolved.) -/
def prevDone (s : LockState) : Option Nat → Bool
  | none => true
  | some p =>
    match s.calls[p]? with
    | some cp => cp.status = .done
    | none => false

/-- One step of the lock model.  `none` = the event is not enabled. -/
def lstep (s : LockState) : LEv → Option LockState
  | .arrive k =>
    let n := s.calls.length
    some { calls := s.calls ++ [⟨k, (lookupTable s.table k).map PromiseRef.callOf, .waiting⟩],
           table := setTable s.table k (.chain n) }
  | .start c =>
    match s.calls[c]? with
    | some call =>
      if call.status = .waiting && prevDone s call.prev then
        some { s with calls := s.calls.set c { call with status := .running } }
      else none
    | none => none
  | .finish c _ok =>
    match s.calls[c]? with
    | some call =>
      if call.status = .running then
        some { calls := s.calls.set c { call with status := .done },
               table :=
                 if lookupTable s.table call.key = some (.current c) then
                   removeTable s.table call.key
                 else s.table }
      else none
    | none => none

/-- The initial lock state: no calls, empty `queues` map. -/
def initLock : LockState := ⟨[], []⟩

/-- Run a sequence of events from the initial state. -/
def lrun (evs : List LEv) : Option LockState := evs.foldlM lstep initLock

/-- No two `fn` bodies for the same key run concurrently. -/
def MutexOn (s : LockState) : Prop :=
  ∀ (i j : Nat) (ci cj : LCall), s.calls[i]? = some ci → s.calls[j]? = some cj →
    ci.status = .running → cj.status = .running → ci.key = cj.key → i = j

/-- Same-key callers enter `fn` in arrival order: whenever a later
arrival has started (is no longer waiting), every earlier same-key
arrival has already finished. -/
def FifoOn (s : LockState) : Prop :=
  ∀ (i : Nat) (ci : LCall), s.calls[i]? = some ci → ci.status ≠ .waiting →
    ∀ (j : Nat) (cj : LCall), s.calls[j]? = some cj → cj.key = ci.key → j < i →
      cj.status = .done

/-- The inductive invariant of the lock model. -/
structure LockInv (s : LockState) : Prop where
  fifoDone : FifoOn s
  prevLink : ∀ (i : Nat) (ci : LCall) (p : Nat), s.calls[i]? = some ci →
    ci.prev = some p →
    p < i ∧ ∃ cp : LCall, s.calls[p]? = some cp ∧ cp.key = ci.key ∧
      ∀ (j : Nat) (cj : LCall), s.calls[j]? = some cj → cj.key = ci.key →
        p < j → j < i → False
  prevNone : ∀ (i : Nat) (ci : LCall), s.calls[i]? = some ci → ci.prev = none →
    ∀ (j : Nat) (cj : LCall), s.calls[j]? = some cj → cj.key = ci.key → j < i → False
  tableNone : ∀ k : Nat, lookupTable s.table k = none →
    ∀ (j : Nat) (cj : LCall), s.calls[j]? = some cj → cj.key = k → False
  tableSome : ∀ (k : Nat) (r : PromiseRef), lookupTable s.table k = some r →
    ∃ (c : Nat) (cc : LCall), r = .chain c ∧ s.calls[c]? = some cc ∧ cc.key = k ∧
      ∀ (j : Nat) (cj : LCall), s.calls[j]? = some cj → cj.key = k → j ≤ c

lemma lookupTable_set_self (t : List (Nat × PromiseRef)) (k : Nat) (r : PromiseRef) :
    lookupTable (setTable t k r) k = some r := by
  induction t with
  | nil => simp [setTable, lookupTable]
  | cons p rest ih =>
    by_cases h : p.1 = k
    · simp [setTable, lookupTable, h]
    · simp [setTable, lookupTable, h, ih]

lemma lookupTable_set_ne (t : List (Nat × PromiseRef)) (k k2 : Nat) (r : PromiseRef)
    (h : k2 ≠ k) : lookupTable (setTable t k r) k2 = lookupTable t k2 := by
  have hk : ¬ (k = k2) := fun hh => h hh.symm
  induction t with
  | nil => simp [setTable, lookupTable, hk]
  | cons p rest ih =>
    by_cases hp : p.1 = k
    · simp [setTable, lookupTable, hp, hk]
    · simp [setTable, lookupTable, hp, ih]

lemma calls_concat_getElem (l : List LCall) (a : LCall) (i : Nat) :
    (l ++ [a])[i]? = if i < l.length then l[i]? else if i = l.length then some a else none := by
  rw [List.getElem?_append]
  split
  · rfl
  · rename_i hge
    rcases Nat.lt_or_ge (i - l.length) 1 with h1 | h1
    · have he : i = l.length := by omega
      have : i - l.length = 0 := by omega
      simp [this, he]
    · have hne : ¬ (i = l.length) := by omega
      simp only [hne, if_false]
      exact List.getElem?_eq_none h1

lemma calls_some_lt {l : List LCall} {i : Nat} {c : LCall} (h : l[i]? = some c) :
    i < l.length := (List.getElem?_eq_some.mp h).1

/-- Preservation of the lock invariant by an arrival. -/
lemma lockInv_arrive {s s2 : LockState} {k : Nat} (inv : LockInv s)
    (h : lstep s (.arrive k) = some s2) : LockInv s2 := by
  have hs2 : s2 = LockState.mk
      (s.calls ++ [⟨k, (lookupTable s.table k).map PromiseRef.callOf, .waiting⟩])
      (setTable s.table k (.chain s.calls.length)) := by
    simpa [lstep] using h.symm
  subst hs2
  set n := s.calls.length with hn
  set newCall : LCall := ⟨k, (lookupTable s.table k).map PromiseRef.callOf, .waiting⟩
    with hnew
  have hget : ∀ (i : Nat) (ci : LCall), (s.calls ++ [newCall])[i]? = some ci →
      (i < n ∧ s.calls[i]? = some ci) ∨ (i = n ∧ ci = newCall) := by
    intro i ci hi
    rw [calls_concat_getElem] at hi
    by_cases hlt : i < s.calls.length
    · exact Or.inl ⟨hlt, by simpa [hlt] using hi⟩
    · by_cases heq : i = s.calls.length
      · refine Or.inr ⟨heq, ?_⟩
        simp [hlt, heq] at hi
        exact hi.symm
      · simp [hlt, heq] at hi
  have hgetOld : ∀ (i : Nat), i < n → (s.calls ++ [newCall])[i]? = s.calls[i]? := by
    intro i hi
    rw [calls_concat_getElem]
    simp [hi]
  constructor
  · -- fifoDone
    intro i ci hi hst j cj hj hkey hlt
    rcases hget i ci hi with ⟨hin, hiold⟩ | ⟨_, hinew⟩
    · rcases hget j cj hj with ⟨_, hjold⟩ | ⟨hjn, _⟩
      · exact inv.fifoDone i ci hiold hst j cj hjold hkey hlt
      · omega
    · subst hinew
      simp [hnew] at hst
  · -- prevLink
    intro i ci p hi hp
    rcases hget i ci hi with ⟨hin, hiold⟩ | ⟨hieq, hinew⟩
    · obtain ⟨hpi, cp, hcp, hcpk, himm⟩ := inv.prevLink i ci p hiold hp
      refine ⟨hpi, cp, ?_, hcpk, ?_⟩
      · rw [hgetOld p (by omega)]; exact hcp
      · intro j cj hj hkey hpj hji
        rcases hget j cj hj with ⟨_, hjold⟩ | ⟨hjn, _⟩
        · exact himm j cj hjold hkey hpj hji
        · omega
    · subst hinew
      simp only [hnew] at hp
      -- the new call's prev comes from the table lookup at arrival
      cases htab : lookupTable s.table k with
      | none => simp [htab] at hp
      | some r =>
        simp [htab] at hp
        obtain ⟨c, cc, hr, hcc, hcck, hlatest⟩ := inv.tableSome k r htab
        have hpc : p = c := by
          subst hr
          simpa [PromiseRef.callOf] using hp.symm
        subst hpc
        have hcn : p < n := calls_some_lt hcc
        refine ⟨by omega, cc, ?_, by simp [hnew, hcck], ?_⟩
        · rw [hgetOld p hcn]; exact hcc
        · intro j cj hj hkey hpj hji
          have hjn : j < n := by omega
          rcases hget j cj hj with ⟨_, hjold⟩ | ⟨hjeq, _⟩
          · have := hlatest j cj hjold (by simpa [hnew] using hkey)
            omega
          · omega
  · -- prevNone
    intro i ci hi hp j cj hj hkey hlt
    rcases hget i ci hi with ⟨hin, hiold⟩ | ⟨hieq, hinew⟩
    · rcases hget j cj hj with ⟨_, hjold⟩ | ⟨hjn, _⟩
      · exact inv.prevNone i ci hiold hp j cj hjold hkey hlt
      · omega
    · subst hinew
      simp only [hnew] at hp
      cases htab : lookupTable s.table k with
      | some r => simp [htab] at hp
      | none =>
        have hjn : j < n := by omega
        rcases hget j cj hj with ⟨_, hjold⟩ | ⟨hjeq, _⟩
        · exact inv.tableNone k htab j cj hjold (by simpa [hnew] using hkey)
        · omega
  · -- tableNone
    intro k2 hk2 j cj hj hkey
    by_cases hkk : k2 = k
    · subst hkk
      rw [lookupTable_set_self] at hk2
      exact Option.noConfusion hk2
    · rw [lookupTable_set_ne _ _ _ _ hkk] at hk2
      rcases hget j cj hj with ⟨_, hjold⟩ | ⟨hjeq, hjnew⟩
      · exact inv.tableNone k2 hk2 j cj hjold hkey
      · subst hjnew
        have hkkk : k = k2 := by simpa [hnew] using hkey
        exact hkk hkkk.symm
  · -- tableSome
    intro k2 r hk2
    by_cases hkk : k2 = k
    · subst hkk
      rw [lookupTable_set_self] at hk2
      refine ⟨n, newCall, (Option.some.inj hk2).symm, ?_, by simp [hnew], ?_⟩
      · rw [calls_concat_getElem]
        simp
      · intro j cj hj hkey
        have := calls_some_lt hj
        simp at this
        omega
    · rw [lookupTable_set_ne _ _ _ _ hkk] at hk2
      obtain ⟨c, cc, hr, hcc, hcck, hlatest⟩ := inv.tableSome k2 r hk2
      have hcn : c < n := calls_some_lt hcc
      refine ⟨c, cc, hr, ?_, hcck, ?_⟩
      · rw [hgetOld c hcn]; exact hcc
      · intro j cj hj hkey
        rcases hget j cj hj with ⟨_, hjold⟩ | ⟨hjeq, hjnew⟩
        · exact hlatest j cj hjold hkey
        · subst hjnew
          have hkkk : k = k2 := by simpa [hnew] using hkey
          exact absurd hkkk.symm hkk

section StatusSet

variable {s : LockState} {c : Nat} {call call2 : LCall}

/-- Entries of `s.calls.set c call2`, resolved against the original list. -/
lemma set_mem_cases (hclen : c < s.calls.length) :
    ∀ (i : Nat) (ci : LCall), (s.calls.set c call2)[i]? = some ci →
      (i = c ∧ ci = call2) ∨ (i ≠ c ∧ s.calls[i]? = some ci) := by
  intro i ci hi
  by_cases hic : i = c
  · subst hic
    rw [List.getElem?_set_eq_of_lt _ hclen] at hi
    exact Or.inl ⟨rfl, (Option.some.inj hi).symm⟩
  · rw [List.getElem?_set_ne (fun hh => hic hh.symm)] at hi
    exact Or.inr ⟨hic, hi⟩

lemma set_get_ne (hic : c ≠ c2) : (s.calls.set c call2)[c2]? = s.calls[c2]? :=
  List.getElem?_set_ne hic

/-- A status-only update preserves `prevLink`. -/
lemma prevLink_set (inv : LockInv s) (hc : s.calls[c]? = some call)
    (hkey : call2.key = call.key) (hprev : call2.prev = call.prev) :
    ∀ (i : Nat) (ci : LCall) (p : Nat), (s.calls.set c call2)[i]? = some ci →
      ci.prev = some p →
      p < i ∧ ∃ cp : LCall, (s.calls.set c call2)[p]? = some cp ∧ cp.key = ci.key ∧
        ∀ (j : Nat) (cj : LCall), (s.calls.set c call2)[j]? = some cj →
          cj.key = ci.key → p < j → j < i → False := by
  have hclen : c < s.calls.length := calls_some_lt hc
  intro i ci p hi hp
  -- resolve the referenced entry and reduce to the original invariant
  have hik : ∃ ci0 : LCall, s.calls[i]? = some ci0 ∧ ci.key = ci0.key ∧
      ci.prev = ci0.prev := by
    rcases set_mem_cases hclen i ci hi with ⟨hie, hval⟩ | ⟨_, hiold⟩
    · subst hie; subst hval; exact ⟨call, hc, hkey, hprev⟩
    · exact ⟨ci, hiold, rfl, rfl⟩
  obtain ⟨ci0, hi0, hik0, hip0⟩ := hik
  obtain ⟨hpi, cp, hcp, hcpk, himm⟩ := inv.prevLink i ci0 p hi0 (hip0 ▸ hp)
  refine ⟨hpi, ?_⟩
  by_cases hpc : p = c
  · subst hpc
    have : cp = call := by rw [hc] at hcp; exact (Option.some.inj hcp).symm
    subst this
    refine ⟨call2, List.getElem?_set_eq_of_lt _ hclen, by rw [hkey, hcpk, hik0], ?_⟩
    intro j cj hj hjk hpj hji
    rcases set_mem_cases hclen j cj hj with ⟨hje, _⟩ | ⟨_, hjold⟩
    · omega
    · exact himm j cj hjold (by rw [← hik0]; exact hjk) hpj hji
  · refine ⟨cp, by rw [set_get_ne (fun hh => hpc hh.symm)]; exact hcp,
      by rw [hcpk, hik0], ?_⟩
    intro j cj hj hjk hpj hji
    rcases set_mem_cases hclen j cj hj with ⟨hje, hval⟩ | ⟨_, hjold⟩
    · exact himm c call hc (by rw [← hkey, ← hval, hjk]; exact hik0)
        (by omega) (by omega)
    · exact himm j cj hjold (by rw [← hik0]; exact hjk) hpj hji

/-- A status-only update preserves `prevNone`. -/
lemma prevNone_set (inv : LockInv s) (hc : s.calls[c]? = some call)
    (hkey : call2.key = call.key) (hprev : call2.prev = call.prev) :
    ∀ (i : Nat) (ci : LCall), (s.calls.set c call2)[i]? = some ci → ci.prev = none →
      ∀ (j : Nat) (cj : LCall), (s.calls.set c call2)[j]? = some cj →
        cj.key = ci.key → j < i → False := by
  have hclen : c < s.calls.length := calls_some_lt hc
  intro i ci hi hp j cj hj hjk hji
  have hik : ∃ ci0 : LCall, s.calls[i]? = some ci0 ∧ ci.key = ci0.key ∧
      ci.prev = ci0.prev := by
    rcases set_mem_cases hclen i ci hi with ⟨hie, hval⟩ | ⟨_, hiold⟩
    · subst hie; subst hval; exact ⟨call, hc, hkey, hprev⟩
    · exact ⟨ci, hiold, rfl, rfl⟩
  obtain ⟨ci0, hi0, hik0, hip0⟩ := hik
  rcases set_mem_cases hclen j cj hj with ⟨hje, hval⟩ | ⟨_, hjold⟩
  · exact inv.prevNone i ci0 hi0 (hip0 ▸ hp) c call hc
      (by rw [← hkey, ← hval, hjk]; exact hik0) (by omega)
  · exact inv.prevNone i ci0 hi0 (hip0 ▸ hp) j cj hjold
      (by rw [← hik0]; exact hjk) hji

/-- A status-only update preserves `tableNone` (over an unchanged table). -/
lemma tableNone_set (inv : LockInv s) (hc : s.calls[c]? = some call)
    (hkey : call2.key = call.key) :
    ∀ k : Nat, lookupTable s.table k = none →
      ∀ (j : Nat) (cj : LCall), (s.calls.set c call2)[j]? = some cj →
        cj.key = k → False := by
  have hclen : c < s.calls.length := calls_some_lt hc
  intro k hk j cj hj hjk
  rcases set_mem_cases hclen j cj hj with ⟨hje, hval⟩ | ⟨_, hjold⟩
  · exact inv.tableNone k hk c call hc (by rw [← hkey, ← hval]; exact hjk)
  · exact inv.tableNone k hk j cj hjold hjk

/-- A status-only update preserves `tableSome` (over an unchanged table). -/
lemma tableSome_set (inv : LockInv s) (hc : s.calls[c]? = some call)
    (hkey : call2.key = call.key) :
    ∀ (k : Nat) (r : PromiseRef), lookupTable s.table k = some r →
      ∃ (c2 : Nat) (cc : LCall), r = .chain c2 ∧
        (s.calls.set c call2)[c2]? = some cc ∧ cc.key = k ∧
        ∀ (j : Nat) (cj : LCall), (s.calls.set c call2)[j]? = some cj →
          cj.key = k → j ≤ c2 := by
  have hclen : c < s.calls.length := calls_some_lt hc
  intro k r hk
  obtain ⟨c2, cc, hr, hcc, hcck, hlatest⟩ := inv.tableSome k r hk
  have hlatest2 : ∀ (j : Nat) (cj : LCall), (s.calls.set c call2)[j]? = some cj →
      cj.key = k → j ≤ c2 := by
    intro j cj hj hjk
    rcases set_mem_cases hclen j cj hj with ⟨hje, hval⟩ | ⟨_, hjold⟩
    · have := hlatest c call hc (by rw [← hkey, ← hval]; exact hjk)
      omega
    · exact hlatest j cj hjold hjk
  by_cases hc2 : c2 = c
  · subst hc2
    have : cc = call := by rw [hc] at hcc; exact (Option.some.inj hcc).symm
    subst this
    exact ⟨c2, call2, hr, List.getElem?_set_eq_of_lt _ hclen,
      by rw [hkey]; exact hcck, hlatest2⟩
  · exact ⟨c2, cc, hr, by rw [set_get_ne (fun hh => hc2 hh.symm)]; exact hcc,
      hcck, hlatest2⟩

end StatusSet

/-- Preservation of the lock invariant when a waiting caller enters `fn`. -/
lemma lockInv_start {s s2 : LockState} {c : Nat} (inv : LockInv s)
    (h : lstep s (.start c) = some s2) : LockInv s2 := by
  cases hc : s.calls[c]? with
  | none => simp [lstep, hc] at h
  | some call =>
    simp only [lstep, hc] at h
    by_cases hcond : (decide (call.status = LStatus.waiting) && prevDone s call.prev) = true
    · rw [if_pos hcond] at h
      have hs2 : s2 = { s with calls := s.calls.set c { call with status := .running } } :=
        (Option.some.inj h).symm
      subst hs2
      have hcond2 : call.status = LStatus.waiting ∧ prevDone s call.prev = true := by
        simpa using hcond
      obtain ⟨hw, hpd⟩ := hcond2
      have hclen : c < s.calls.length := calls_some_lt hc
      -- every same-key call earlier than c is done
      have hEarlier : ∀ (j : Nat) (cj : LCall), s.calls[j]? = some cj →
          cj.key = call.key → j < c → cj.status = .done := by
        intro j cj hj hjk hjc
        cases hprev : call.prev with
        | none => exact (inv.prevNone c call hc hprev j cj hj hjk hjc).elim
        | some p =>
          rw [hprev] at hpd
          simp only [prevDone] at hpd
          obtain ⟨hpc, cp2, hcp2, hcp2k, himm⟩ := inv.prevLink c call p hc hprev
          rw [hcp2] at hpd
          have hcpd : cp2.status = .done := by simpa using hpd
          rcases Nat.lt_trichotomy j p with hjp | hjp | hjp
          · exact inv.fifoDone p cp2 hcp2 (by rw [hcpd]; simp) j cj hj
              (by rw [hjk, ← hcp2k]) hjp
          · subst hjp
            rw [hcp2] at hj
            rw [← Option.some.inj hj]
            exact hcpd
          · exact (himm j cj hj hjk hjp hjc).elim
      -- no same-key call later than c has started
      have hNoLater : ∀ (i : Nat) (ci : LCall), s.calls[i]? = some ci →
          ci.status ≠ .waiting → ci.key = call.key → c < i → False := by
        intro i ci hi hst hik hci
        have := inv.fifoDone i ci hi hst c call hc hik.symm hci
        rw [hw] at this
        exact LStatus.noConfusion this
      constructor
      · -- fifoDone
        intro i ci hi hst j cj hj hjk hji
        rcases set_mem_cases hclen i ci hi with ⟨hie, hval⟩ | ⟨hine, hiold⟩
        · subst hie; subst hval
          rcases set_mem_cases hclen j cj hj with ⟨hje, _⟩ | ⟨_, hjold⟩
          · omega
          · exact hEarlier j cj hjold (by simpa using hjk) hji
        · rcases set_mem_cases hclen j cj hj with ⟨hje, hval⟩ | ⟨_, hjold⟩
          · subst hje; subst hval
            exact (hNoLater i ci hiold hst (by simpa using hjk.symm) hji).elim
          · exact inv.fifoDone i ci hiold hst j cj hjold hjk hji
      · exact prevLink_set inv hc rfl rfl
      · exact prevNone_set inv hc rfl rfl
      · exact tableNone_set inv hc rfl
      · exact tableSome_set inv hc rfl
    · rw [if_neg hcond] at h
      exact absurd h (by simp)

/-- Preservation of the lock invariant when a running caller's `fn`
settles (normally or by throwing). -/
lemma lockInv_finish {s s2 : LockState} {c : Nat} {ok : Bool} (inv : LockInv s)
    (h : lstep s (.finish c ok) = some s2) : LockInv s2 := by
  cases hc : s.calls[c]? with
  | none => simp [lstep, hc] at h
  | some call =>
    simp only [lstep, hc] at h
    by_cases hr : call.status = LStatus.running
    · rw [if_pos hr] at h
      -- the stored promise for the key is always a chain object, never
      -- the bare `current` promise, so the delete guard is always false
      have hguard : ¬ lookupTable s.table call.key = some (.current c) := by
        intro hg
        obtain ⟨c2, cc, hrr, _, _, _⟩ := inv.tableSome call.key (.current c) hg
        exact PromiseRef.noConfusion hrr
      rw [if_neg hguard] at h
      have hs2 : s2 = LockState.mk
          (s.calls.set c { call with status := .done }) s.table :=
        (Option.some.inj h).symm
      subst hs2
      have hclen : c < s.calls.length := calls_some_lt hc
      constructor
      · -- fifoDone
        intro i ci hi hst j cj hj hjk hji
        rcases set_mem_cases hclen i ci hi with ⟨hie, hval⟩ | ⟨hine, hiold⟩
        · rcases set_mem_cases hclen j cj hj with ⟨hje, _⟩ | ⟨_, hjold⟩
          · omega
          · exact inv.fifoDone c call hc (by rw [hr]; simp) j cj hjold
              (by rw [hjk, hval]) (by omega)
        · rcases set_mem_cases hclen j cj hj with ⟨hje, hval⟩ | ⟨_, hjold⟩
          · -- j = c: the finishing call is now done
            rw [hval]
          · exact inv.fifoDone i ci hiold hst j cj hjold hjk hji
      · exact prevLink_set inv hc rfl rfl
      · exact prevNone_set inv hc rfl rfl
      · exact tableNone_set inv hc rfl
      · exact tableSome_set inv hc rfl
    · rw [if_neg hr] at h
      exact absurd h (by simp)

/-- The initial state satisfies the invariant. -/
lemma lockInv_init : LockInv initLock := by
  constructor <;> intro i <;> intros <;> simp_all [initLock, lookupTable]

/-- Any state reachable by `lrun` satisfies the invariant. -/
lemma lockInv_lrun : ∀ (evs : List LEv) (s : LockState),
    lrun evs = some s → LockInv s := by
  have main : ∀ (evs : List LEv) (s0 : LockState), LockInv s0 →
      ∀ s : LockState, evs.foldlM lstep s0 = some s → LockInv s := by
    intro evs
    induction evs with
    | nil => intro s0 h0 s hs; simp [List.foldlM] at hs; exact hs ▸ h0
    | cons e rest ih =>
      intro s0 h0 s hs
      simp only [List.foldlM] at hs
      cases hstep : lstep s0 e with
      | none => rw [hstep] at hs; exact absurd hs (by simp)
      | some s1 =>
        rw [hstep] at hs
        have h1 : LockInv s1 := by
          cases e with
          | arrive k => exact lockInv_arrive h0 hstep
          | start c => exact lockInv_start h0 hstep
          | finish c ok => exact lockInv_finish h0 hstep
        exact ih s1 h1 s hs
  intro evs s hs
  exact main evs initLock lockInv_init s hs

/-- Every arrived caller has finished (the key's queue has drained). -/
def AllDone (s : LockState) : Prop := ∀ cj ∈ s.calls, cj.status = .done

instance (s : LockState) : Decidable (AllDone s) := by
  unfold AllDone; infer_instance

/-- C2: for every key, no two `withChatLock(key, fn)` calls execute their
`fn` bodies concurrently (`MutexOn`); queued callers for the same key
enter `fn` in FIFO arrival order (`FifoOn`); finishing with a thrown
`fn` releases exactly as a normal return does (the `finally` block is
outcome-independent), and once a caller is done, a waiting caller chained
on it can always start. -/
theorem withChatLock_serializes (evs : List LEv) (s : LockState)
    (h : lrun evs = some s) :
    MutexOn s ∧ FifoOn s ∧
    (∀ (c : Nat) (ok : Bool), lstep s (.finish c ok) = lstep s (.finish c true)) ∧
    (∀ (c c2 : Nat) (cc c2c : LCall), s.calls[c]? = some cc → cc.status = .done →
      s.calls[c2]? = some c2c → c2c.status = .waiting → c2c.prev = some c →
      ∃ s2 : LockState, lstep s (.start c2) = some s2) := by
  have inv := lockInv_lrun evs s h
  refine ⟨?_, inv.fifoDone, fun c ok => rfl, ?_⟩
  · intro i j ci cj hi hj hri hrj hkey
    rcases Nat.lt_trichotomy i j with hij | hij | hij
    · have hd := inv.fifoDone j cj hj (by rw [hrj]; simp) i ci hi hkey hij
      rw [hri] at hd
      exact absurd hd (by simp)
    · exact hij
    · have hd := inv.fifoDone i ci hi (by rw [hri]; simp) j cj hj hkey.symm hij
      rw [hrj] at hd
      exact absurd hd (by simp)
  · intro c c2 cc c2c hc hdone hc2 hw hprev
    have hcond : (decide (c2c.status = LStatus.waiting) && prevDone s c2c.prev) = true := by
      rw [hprev]
      simp only [prevDone]
      rw [hc]
      simp [hw, hdone]
    exact ⟨_, by simp only [lstep, hc2]; rw [if_pos hcond]⟩

/-- Witness for `withChatLock_serializes`: a concrete two-caller trace on
one key in which the first caller's `fn` throws (`finish 0 false`) and
the second caller still starts. -/
theorem withChatLock_serializes_witness :
    MutexOn ⟨[⟨5, none, .done⟩, ⟨5, some 0, .running⟩], [(5, .chain 1)]⟩ ∧
    FifoOn ⟨[⟨5, none, .done⟩, ⟨5, some 0, .running⟩], [(5, .chain 1)]⟩ ∧
    (∀ (c : Nat) (ok : Bool),
      lstep ⟨[⟨5, none, .done⟩, ⟨5, some 0, .running⟩], [(5, .chain 1)]⟩ (.finish c ok) =
      lstep ⟨[⟨5, none, .done⟩, ⟨5, some 0, .running⟩], [(5, .chain 1)]⟩ (.finish c true)) ∧
    (∀ (c c2 : Nat) (cc c2c : LCall),
      (⟨[⟨5, none, .done⟩, ⟨5, some 0, .running⟩], [(5, .chain 1)]⟩ :
        LockState).calls[c]? = some cc → cc.status = .done →
      (⟨[⟨5, none, .done⟩, ⟨5, some 0, .running⟩], [(5, .chain 1)]⟩ :
        LockState).calls[c2]? = some c2c → c2c.status = .waiting → c2c.prev = some c →
      ∃ s2 : LockState,
        lstep ⟨[⟨5, none, .done⟩, ⟨5, some 0, .running⟩], [(5, .chain 1)]⟩ (.start c2) =
          some s2) :=
  withChatLock_serializes
    [.arrive 5, .arrive 5, .start 0, .finish 0 false, .start 1] _ (by decide)

/-- C8 (code bug): after a key's only caller completes, the `queues`
entry is still present.  The cleanup guard `queues.get(key) === current`
compares the stored `previous.then(() => current)` promise — a distinct
object — against `current`, so it never fires: with all callers done,
`lookupTable` still returns the stored chain. -/
theorem withChatLock_entry_never_removed :
    lrun [.arrive 0, .start 0, .finish 0 true] =
      some ⟨[⟨0, none, .done⟩], [(0, .chain 0)]⟩ ∧
    AllDone ⟨[⟨0, none, .done⟩], [(0, .chain 0)]⟩ ∧
    lookupTable [(0, PromiseRef.chain 0)] 0 = some (.chain 0) := by
  refine ⟨by decide, by decide, by decide⟩

/-! ## Budget lemmas (claims C6, C7) -/

/-- Total token estimate of a fact list. -/
def factsTokens (l : List String) : Nat := (l.map estimateTokens).sum

/-- Total token estimate of a message window. -/
def msgsTokens (l : List RawMsg) : Nat := (l.map (fun m => estimateTokens m.content)).sum

lemma estimateTokens_le_of_length_le {s : String} {b : Nat} (h : s.data.length ≤ 4 * b) :
    estimateTokens s ≤ b := by
  unfold estimateTokens
  split
  · omega
  · rw [Nat.div_le_iff_le_mul_add_pred (by omega)]
    omega

/-- Trimming to a positive token budget really enforces the budget. -/
lemma estimate_trim_le (s : String) (b : Nat) (hb : 1 ≤ b) :
    estimateTokens (trimToTokenBudget s b) ≤ b := by
  unfold trimToTokenBudget
  dsimp only
  split
  · simp [estimateTokens]
  · rename_i hne
    split
    · rename_i hlen
      exact estimateTokens_le_of_length_le (by omega)
    · rename_i hlen
      apply estimateTokens_le_of_length_le
      simp only [ofChars]
      rw [List.length_append, List.length_take]
      simp only [List.length_cons, List.length_nil]
      omega

lemma trimFactsGo_bound (b : Nat) : ∀ (l : List String) (used : Nat), used ≤ b →
    used + factsTokens (trimFactsGo b l used) ≤ b := by
  intro l
  induction l with
  | nil => intro used h; simpa [trimFactsGo, factsTokens]
  | cons f rest ih =>
    intro used h
    unfold trimFactsGo
    dsimp only
    split
    · simpa [factsTokens]
    · rename_i hfit
      have := ih (used + estimateTokens f) (by omega)
      simp only [factsTokens, List.map_cons, List.sum_cons] at this ⊢
      omega

/-- The kept facts fit the facts budget. -/
lemma trimFacts_bound (facts : List String) (b : Nat) :
    factsTokens (trimFactsToBudget facts b) ≤ b := by
  unfold trimFactsToBudget
  split
  · simp [factsTokens]
  · have := trimFactsGo_bound b facts 0 (by omega)
    omega

lemma collectBudget_bound (b : Nat) : ∀ (l : List RawMsg) (used : Nat), used ≤ b →
    used + msgsTokens (collectBudget b l used) ≤ b := by
  intro l
  induction l with
  | nil => intro used h; simpa [collectBudget, msgsTokens]
  | cons m rest ih =>
    intro used h
    unfold collectBudget
    dsimp only
    split
    · simpa [msgsTokens]
    · rename_i hfit
      have := ih (used + estimateTokens m.content) (by omega)
      simp only [msgsTokens, List.map_cons, List.sum_cons] at this ⊢
      omega

/-- The selected window fits the recent budget. -/
lemma applyTokenBudget_bound (msgs : List RawMsg) (b : Nat) :
    msgsTokens (applyTokenBudget msgs b) ≤ b := by
  unfold applyTokenBudget
  dsimp only
  split
  · simp [msgsTokens]
  · rename_i hb0
    split
    · simp [msgsTokens]
    · rename_i newest older heq
      split
      · rename_i hover
        have h1 : (1 : Nat) ≤ max 1 b := le_max_left 1 b
        have h2 : max 1 b = b := by omega
        simp only [msgsTokens, List.map_cons, List.map_nil, List.sum_cons, List.sum_nil]
        have := estimate_trim_le newest.content (max 1 b) h1
        omega
      · rename_i hfit
        have hb1 : estimateTokens newest.content ≤ b := by omega
        have := collectBudget_bound b older (estimateTokens newest.content) hb1
        unfold msgsTokens at this ⊢
        rw [List.map_reverse, List.sum_reverse]
        simp only [List.map_cons, List.sum_cons]
        omega

/-- The recent-window token estimate never exceeds the recent budget. -/
lemma selectRecent_bound (raws : List RawMsg) (n b : Nat) :
    msgsTokens (selectRecentUserMessages raws n b) ≤ b := by
  unfold selectRecentUserMessages
  split
  · simp [msgsTokens]
  · exact applyTokenBudget_bound _ b

/-- C6 (counterexample): the memory system message carries the
`Summary:` label, so its token estimate can exceed
`summaryBudget + factsBudget` even though each section is within its own
budget: a 4-character summary under a 1-token budget yields a 13-character
block estimating to 4 tokens. -/
theorem memory_block_estimate_exceeds_budgets :
    ¬ estimateTokens (buildMemoryBlock "aaaa" [] 1 0) ≤ 1 + 0 := by decide

/-- C6 (amended): the per-section budgets are enforced on the section
contents: for a positive summary budget the trimmed summary estimates
within `summaryBudget`; the kept facts' total estimate is within
`factsBudget`; and the selected recent window's total estimate is within
`recentBudget`.  (The memory system message additionally carries the
fixed `Summary:`/`Facts:` labels and separators, which is what makes the
block-level bound of the original claim fail.) -/
theorem token_budgets_enforced (summary : String) (facts : List String)
    (raws : List RawMsg) (bs bf n br : Nat) (hbs : 1 ≤ bs) :
    estimateTokens (trimToTokenBudget summary bs) ≤ bs ∧
    factsTokens (trimFactsToBudget facts bf) ≤ bf ∧
    msgsTokens (selectRecentUserMessages raws n br) ≤ br :=
  ⟨estimate_trim_le summary bs hbs, trimFacts_bound facts bf, selectRecent_bound raws n br⟩

/-- Witness for `token_budgets_enforced` at a concrete input. -/
theorem token_budgets_enforced_witness :
    estimateTokens (trimToTokenBudget "aaaaaaaa" 1) ≤ 1 ∧
    factsTokens (trimFactsToBudget ["abcd", "efgh"] 1) ≤ 1 ∧
    msgsTokens (selectRecentUserMessages
      [⟨"user", "aaaaaaaa", 1, none, false⟩] 3 1) ≤ 1 :=
  token_budgets_enforced "aaaaaaaa" ["abcd", "efgh"]
    [⟨"user", "aaaaaaaa", 1, none, false⟩] 1 1 3 1 (by decide)

lemma collectBudget_isPre (b : Nat) : ∀ (l : List RawMsg) (used : Nat),
    collectBudget b l used <+: l := by
  intro l
  induction l with
  | nil => intro used; simp [collectBudget]
  | cons m rest ih =>
    intro used
    unfold collectBudget
    dsimp only
    split
    · exact List.nil_prefix
    · simpa using ih (used + estimateTokens m.content)

lemma suffix_append_single {l1 l2 : List RawMsg} (m : RawMsg) (h : l1 <:+ l2) :
    l1 ++ [m] <:+ l2 ++ [m] := by
  obtain ⟨t, ht⟩ := h
  exact ⟨t, by rw [← ht, List.append_assoc]⟩

/-- Structure of `applyTokenBudget` under a positive budget: either a
suffix of the input (older messages dropped first), or — when even the
newest message overflows — the newest message alone, its content
truncated to the budget with a trailing ellipsis. -/
lemma applyTokenBudget_shape (msgs : List RawMsg) (b : Nat) (hb : 1 ≤ b) :
    applyTokenBudget msgs b <:+ msgs ∨
    (∃ (m : RawMsg) (pre : List RawMsg), msgs = pre ++ [m] ∧
      b < estimateTokens m.content ∧
      applyTokenBudget msgs b =
        [{ m with content := ofChars (m.content.data.take (b * 4 - 3) ++ ['.', '.', '.']) }]) := by
  unfold applyTokenBudget
  dsimp only
  split
  · omega
  · split
    · rename_i heq
      have : msgs = [] := by simpa using congrArg List.reverse heq
      rw [this]
      exact Or.inl (List.nil_suffix)
    · rename_i newest older heq
      have hmsgs : msgs = older.reverse ++ [newest] := by
        have := congrArg List.reverse heq
        simpa using this
      split
      · rename_i hover
        refine Or.inr ⟨newest, older.reverse, hmsgs, hover, ?_⟩
        have hmax : max 1 b = b := by omega
        rw [hmax]
        have hne : ¬ newest.content.data = [] := by
          intro hnil
          rw [estimateTokens] at hover
          simp [hnil] at hover
        have hlong : ¬ newest.content.data.length ≤ b * 4 := by
          intro hle
          have := estimateTokens_le_of_length_le (b := b) (s := newest.content) (by omega)
          omega
        unfold trimToTokenBudget
        rw [if_neg hne]
        dsimp only
        rw [if_neg hlong]
      · rename_i hfit
        apply Or.inl
        rw [hmsgs, List.reverse_cons]
        apply suffix_append_single
        rw [List.reverse_suffix]
        exact collectBudget_isPre b older (estimateTokens newest.content)

/-- Modelled from the spec (for refinement comparison only; the source
filters to user messages): "the most recent N−1 prior user/assistant
turns selected from the end of the raw message sequence and trimmed to
fit a recent-window token budget" — the last `count` raw messages of
either role, trimmed by the same `applyTokenBudget`. -/
def specRecentWindow (raws : List RawMsg) (count budget : Nat) : List RawMsg :=
  if count = 0 then [] else applyTokenBudget (sliceLast raws count) budget

/-- C7 (counterexample): the recent window is drawn from the *user*
messages only, not from the user/assistant turns at the end of the raw
sequence: with one prior user and one prior assistant message and a
window of one, the source selects the user message while the claimed
window would be the (newer) assistant message. -/
theorem recent_window_not_turns :
    selectRecentUserMessages
      [⟨"user", "aaaa", 1, none, false⟩, ⟨"assistant", "bbbb", 2, none, false⟩] 1 100 ≠
    specRecentWindow
      [⟨"user", "aaaa", 1, none, false⟩, ⟨"assistant", "bbbb", 2, none, false⟩] 1 100 := by
  decide

/-- C7 (amended): the recent window consists of the most recent
`recentUserCount` prior *user* messages (with nonempty content) taken
from the end of the raw message sequence; trimming to the budget drops
oldest-first (the result is a suffix of that slice), and if even the
single newest message exceeds the budget it is kept alone, truncated
with a trailing ellipsis rather than dropped. -/
theorem recent_window_shape (raws : List RawMsg) (count budget : Nat)
    (hb : 1 ≤ budget) :
    selectRecentUserMessages raws count budget <:+
      sliceLast (raws.filter isUserWithContent) count ∨
    (∃ (m : RawMsg) (pre : List RawMsg),
      sliceLast (raws.filter isUserWithContent) count = pre ++ [m] ∧
      budget < estimateTokens m.content ∧
      selectRecentUserMessages raws count budget =
        [{ m with content :=
            ofChars (m.content.data.take (budget * 4 - 3) ++ ['.', '.', '.']) }]) := by
  unfold selectRecentUserMessages
  split
  · exact Or.inl (List.nil_suffix)
  · exact applyTokenBudget_shape _ budget hb

/-- Witness for `recent_window_shape`: a two-user-message history where
the older message is dropped (suffix case). -/
theorem recent_window_shape_witness :
    selectRecentUserMessages
      [⟨"user", "aaaa", 1, none, false⟩, ⟨"user", "bbbb", 2, none, false⟩] 2 1 <:+
      sliceLast ([⟨"user", "aaaa", 1, none, false⟩,
        ⟨"user", "bbbb", 2, none, false⟩].filter isUserWithContent) 2 ∨
    (∃ (m : RawMsg) (pre : List RawMsg),
      sliceLast ([⟨"user", "aaaa", 1, none, false⟩,
        ⟨"user", "bbbb", 2, none, false⟩].filter isUserWithContent) 2 = pre ++ [m] ∧
      1 < estimateTokens m.content ∧
      selectRecentUserMessages
        [⟨"user", "aaaa", 1, none, false⟩, ⟨"user", "bbbb", 2, none, false⟩] 2 1 =
        [{ m with content :=
            ofChars (m.content.data.take (1 * 4 - 3) ++ ['.', '.', '.']) }]) :=
  recent_window_shape
    [⟨"user", "aaaa", 1, none, false⟩, ⟨"user", "bbbb", 2, none, false⟩] 2 1 (by decide)

/-! ## C9: memory summarization is atomic on validation failure -/

/-- C9: when the structured `{summary, facts}` result fails structural
validation (no JSON object, `summary` not a string, or `facts` not an
array — i.e. `updateMemoryResult` is `null`), `maybeUpdateMemory`
discards the update: the record, in particular its `summary`, `facts`
and `last_summary_ts`, is returned unchanged. -/
theorem memory_update_atomic (cfg : Config) (record : ChatRecord) (now : Nat)
    (parsed : Option MemObj)
    (hfail : updateMemoryResult parsed cfg.SUMMARY_TOKEN_BUDGET
      cfg.FACTS_TOKEN_BUDGET = none) :
    maybeUpdateMemoryM cfg record now (.ok parsed) = record ∧
    (maybeUpdateMemoryM cfg record now (.ok parsed)).summary = record.summary ∧
    (maybeUpdateMemoryM cfg record now (.ok parsed)).facts = record.facts ∧
    (maybeUpdateMemoryM cfg record now (.ok parsed)).last_summary_ts =
      record.last_summary_ts := by
  have h : maybeUpdateMemoryM cfg record now (.ok parsed) = record := by
    unfold maybeUpdateMemoryM
    split
    · simp [hfail]
    · rfl
  exact ⟨h, by rw [h], by rw [h], by rw [h]⟩

/-- Witness for `memory_update_atomic`: a due update whose reply has a
non-string `summary`, on a record with one unsummarized user turn. -/
theorem memory_update_atomic_witness :
    maybeUpdateMemoryM
      ⟨"sys", "llama3", "", "", "", 6, 60, 3, 1, 400, 200, 800, 1200, 1200, ""⟩
      { freshRecord "u" "c" with raw_messages := [⟨"user", "hello", 5, none, false⟩] }
      9 (.ok (some ⟨.jother, .jarr []⟩)) =
    { freshRecord "u" "c" with raw_messages := [⟨"user", "hello", 5, none, false⟩] } :=
  (memory_update_atomic
    ⟨"sys", "llama3", "", "", "", 6, 60, 3, 1, 400, 200, 800, 1200, 1200, ""⟩
    { freshRecord "u" "c" with raw_messages := [⟨"user", "hello", 5, none, false⟩] }
    9 (some ⟨.jother, .jarr []⟩) (by decide)).1

/-! ## C10: prompt-shape invariant -/

/-- The endpoints of a prompt message list: it starts at `x`, ends at
`u`, and has at least the two of them. -/
def GoodShape (l : List Msg) (x u : Msg) : Prop :=
  l.head? = some x ∧ l.getLast? = some u ∧ 2 ≤ l.length

lemma getLast?_drop_of_lt : ∀ (l : List Msg) (n : Nat), n < l.length →
    (l.drop n).getLast? = l.getLast? := by
  intro l
  induction l with
  | nil => intro n h; simp at h
  | cons a rest ih =>
    intro n h
    cases n with
    | zero => rfl
    | succ n2 =>
      simp only [List.drop_succ_cons]
      rw [ih n2 (by simpa using h)]
      cases hr : rest with
      | nil => simp [hr] at h
      | cons b rest2 => simp [List.getLast?_cons_cons]

lemma head?_take_pos (l : List Msg) (n : Nat) (hn : 1 ≤ n) :
    (l.take n).head? = l.head? := by
  cases l with
  | nil => simp
  | cons a rest =>
    cases n with
    | zero => omega
    | succ n2 => simp

lemma getLast?_append_of_getLast? {l1 l2 : List Msg} {u : Msg}
    (h : l2.getLast? = some u) : (l1 ++ l2).getLast? = some u := by
  rw [List.getLast?_append, h]
  rfl

lemma head?_dropLast (l : List Msg) (h : 2 ≤ l.length) :
    l.dropLast.head? = l.head? := by
  cases l with
  | nil => simp at h
  | cons a rest =>
    cases rest with
    | nil => simp at h
    | cons b rest2 => simp

/-- Embeds `buildPromptMessages` starts with the system instruction and ends
with the new user prompt. -/
lemma buildPromptMessages_shape (systemPrompt summary : String) (facts : List String)
    (raws : List RawMsg) (newPrompt : String) (budgets : Budgets) (recentTurns : Nat) :
    GoodShape (buildPromptMessages systemPrompt summary facts raws newPrompt budgets
      recentTurns) ⟨"system", systemPrompt⟩ ⟨"user", newPrompt⟩ := by
  unfold buildPromptMessages GoodShape
  dsimp only
  refine ⟨?_, ?_, ?_⟩
  · rw [List.append_assoc, List.append_assoc]
    simp [List.head?_append]
  · rw [List.append_assoc, List.append_assoc]
    apply getLast?_append_of_getLast?
    apply getLast?_append_of_getLast?
    exact List.getLast?_concat _
  · have hA : ([⟨"system", systemPrompt⟩] : List Msg).length = 1 := rfl
    have hB : ([⟨"user", newPrompt⟩] : List Msg).length = 1 := rfl
    simp only [List.length_append]
    omega

/-- Embeds `injectTopicIntoMessages` preserves both endpoints: the topic line is
spliced strictly before the final message whenever the final message is
not itself a system message. -/
lemma injectTopic_shape {l : List Msg} {x u : Msg} (topic : String)
    (hs : GoodShape l x u) (hu : u.role ≠ "system") :
    GoodShape (injectTopicIntoMessages l topic) x u := by
  obtain ⟨hh, hl, hlen⟩ := hs
  unfold injectTopicIntoMessages
  split
  · exact ⟨hh, hl, hlen⟩
  · rename_i hg
    dsimp only
    set insertAt :=
      (match l[1]? with
        | some m => if m.role = "system" then 2 else 1
        | none => 1) with hins
    have hins1 : 1 ≤ insertAt := by
      rw [hins]
      cases l[1]? with
      | none => simp
      | some m =>
        dsimp only
        split <;> omega
    have hinslt : insertAt < l.length := by
      rw [hins]
      cases h1 : l[1]? with
      | none =>
        cases l with
        | nil => simp at hlen
        | cons a rest =>
          cases rest with
          | nil => simp at hlen
          | cons b rest2 => simp at h1
      | some m =>
        dsimp only
        split
        · rename_i hsys
          -- slot 1 is a system message, so it is not the final message
          by_cases h2 : l.length = 2
          · exfalso
            cases l with
            | nil => simp at hlen
            | cons a rest =>
              cases rest with
              | nil => simp at h2
              | cons b rest2 =>
                cases rest2 with
                | nil =>
                  simp at h1
                  rw [← h1] at hsys
                  have hbu : b = u := by
                    simpa [List.getLast?_cons_cons] using hl
                  rw [hbu] at hsys
                  exact hu hsys
                | cons d rest3 => simp at h2
          · have h1lt : 1 < l.length := by
              cases l with
              | nil => simp at hlen
              | cons a rest =>
                cases rest with
                | nil => simp at hlen
                | cons b rest2 => simp
            omega
        · have h1lt : 1 < l.length := (List.getElem?_eq_some.mp h1).1
          omega
    constructor
    · rw [List.append_assoc, List.head?_append, head?_take_pos l insertAt hins1, hh]
      rfl
    constructor
    · rw [List.append_assoc]
      apply getLast?_append_of_getLast?
      have hdrop : (l.drop insertAt).getLast? = some u := by
        rw [getLast?_drop_of_lt l insertAt hinslt]; exact hl
      exact getLast?_append_of_getLast? hdrop
    · rw [List.length_append, List.length_append, List.length_take]
      simp only [List.length_singleton]
      omega

/-- Embeds `spliceBeforeLast` preserves both endpoints. -/
lemma spliceBeforeLast_shape {l : List Msg} {x u : Msg} (ins : Msg)
    (hs : GoodShape l x u) : GoodShape (spliceBeforeLast l ins) x u := by
  obtain ⟨hh, hl, hlen⟩ := hs
  unfold spliceBeforeLast
  rw [hl]
  refine ⟨?_, ?_, ?_⟩
  · rw [List.head?_append, head?_dropLast l hlen, hh]
    rfl
  · apply getLast?_append_of_getLast?
    simp [List.getLast?_cons_cons]
  · rw [List.length_append, List.length_dropLast]
    simp only [List.length_cons, List.length_singleton]
    omega

/-- Embeds `injectNonInfoHint` preserves both endpoints. -/
lemma injectNonInfoHint_shape {l : List Msg} {x u : Msg} (infoSeeking : Bool)
    (hs : GoodShape l x u) : GoodShape (injectNonInfoHint l infoSeeking) x u := by
  unfold injectNonInfoHint
  split
  · exact hs
  · exact spliceBeforeLast_shape _ hs

/-- Embeds `injectSourcesIntoMessages` preserves both endpoints. -/
lemma injectSources_shape {l : List Msg} {x u : Msg} (sources : List Source)
    (userPrompt : String) (isOv : Option Bool) (hs : GoodShape l x u) :
    GoodShape (injectSourcesIntoMessages l sources userPrompt isOv) x u := by
  unfold injectSourcesIntoMessages
  split
  · exact hs
  · split
    · exact hs
    · dsimp only
      split
      · exact hs
      · split
        · exact spliceBeforeLast_shape _ hs
        · exact spliceBeforeLast_shape _ hs

/-- C10: the assembled prompt begins with the system-instruction message
and ends with the new user prompt, and each injection helper as composed
by `handleChat` (topic hint, non-info hint, web-sources block) preserves
both endpoints, splicing its system message strictly before the final
user prompt. -/
theorem prompt_shape_invariant (systemPrompt summary : String) (facts : List String)
    (raws : List RawMsg) (newPrompt : String) (budgets : Budgets) (recentTurns : Nat)
    (topic : String) (infoSeeking : Bool) (sources : List Source)
    (userPrompt : String) (isOv : Option Bool) :
    GoodShape (buildPromptMessages systemPrompt summary facts raws newPrompt budgets
        recentTurns) ⟨"system", systemPrompt⟩ ⟨"user", newPrompt⟩ ∧
    GoodShape (injectNonInfoHint (injectTopicIntoMessages
        (buildPromptMessages systemPrompt summary facts raws newPrompt budgets
          recentTurns) topic) infoSeeking)
      ⟨"system", systemPrompt⟩ ⟨"user", newPrompt⟩ ∧
    GoodShape (injectSourcesIntoMessages (injectNonInfoHint (injectTopicIntoMessages
        (buildPromptMessages systemPrompt summary facts raws newPrompt budgets
          recentTurns) topic) infoSeeking) sources userPrompt isOv)
      ⟨"system", systemPrompt⟩ ⟨"user", newPrompt⟩ := by
  have h1 := buildPromptMessages_shape systemPrompt summary facts raws newPrompt
    budgets recentTurns
  have h2 := injectTopic_shape topic h1 (by simp)
  have h3 := injectNonInfoHint_shape infoSeeking h2
  have h4 := injectSources_shape sources userPrompt isOv h3
  exact ⟨h1, h3, h4⟩

/-! ## Concrete fixtures for counterexamples and witnesses -/

/-- A config with the source defaults for the fields the model consults. -/
def sampleConfig : Config :=
  ⟨"sys", "llama3", "", "", "", 6, 60, 3, 6, 400, 200, 800, 1200, 1200, ""⟩

/-- An oracle where every background call throws and the main completion
answers `"ans"`. -/
def sampleOracle : Oracle :=
  ⟨.error (), .error (), .error (), .ok "ans", .error (), .error (), .error (),
   .error (), .error (), .error (), 100, 200, 300⟩

/-- A turn request with the web override off. -/
def sampleRequest : TurnRequest := ⟨"u", "c", "hello", "m1", "", none, false⟩

/-- A record whose idempotency index already holds the request's
message id. -/
def sampleHitRecord : ChatRecord :=
  { freshRecord "u" "c" with idempotency := [("m1", ⟨"cached", 50, some [], false⟩)] }

/-! ## C4: routing law -/

/-- C4: the final web decision equals
`override AND (explicit_search OR needs_web OR info_seeking)`; in
particular a `false` override forces `useWeb = false` regardless of the
classifier outcome. -/
theorem routing_law (prompt : String) (override : Bool)
    (resp : Except Unit (Option ClassJson)) :
    (turnWebDecision prompt override resp).use =
      (override && (isExplicitSearchRequest prompt ||
        (determineInfoSeeking prompt resp).needsWeb ||
        (determineInfoSeeking prompt resp).infoSeeking)) ∧
    (override = false → (turnWebDecision prompt override resp).use = false) := by
  refine ⟨rfl, fun h => ?_⟩
  subst h
  simp [turnWebDecision]

/-- Witness for `routing_law` at a concrete prompt with the override off. -/
theorem routing_law_witness :
    (turnWebDecision "hello" false (.error ())).use = false :=
  (routing_law "hello" false (.error ())).2 rfl

/-! ## Call-trace lemmas (claims C1, C3, C5) -/

lemma classifierCalls_mem (prompt : String) :
    ∀ call ∈ classifierCalls prompt, call = (⟨.classification, false⟩ : InfCall) := by
  intro call hcall
  unfold classifierCalls at hcall
  split at hcall
  · simp at hcall
  · simpa using hcall

lemma generateTitleM_calls (cfg : Config) (prompt : String) (o : Oracle) :
    ∀ call ∈ (generateTitleM cfg prompt o).2,
      call.queued = true ∧ call.kind ≠ CallKind.classification := by
  intro call hcall
  unfold generateTitleM at hcall
  dsimp only at hcall
  repeat' split at hcall
  all_goals simp only [List.mem_cons, List.not_mem_nil, or_false] at hcall
  all_goals rcases hcall with rfl | rfl
  all_goals exact ⟨rfl, by simp⟩

lemma generateTopicM_calls (modelId currentTopic : String) (recentPrompts : List String)
    (maxWords : Nat) (o : Oracle) :
    ∀ call ∈ (generateTopicM modelId currentTopic recentPrompts maxWords o).2,
      call.queued = true ∧ call.kind ≠ CallKind.classification := by
  intro call hcall
  unfold generateTopicM at hcall
  dsimp only at hcall
  repeat' split at hcall
  all_goals simp only [List.mem_cons, List.not_mem_nil, or_false] at hcall
  all_goals rcases hcall with rfl | rfl
  all_goals exact ⟨rfl, by simp⟩

lemma updateTopicAfterAnswerM_calls (cfg : Config) (record : ChatRecord)
    (prompt : String) (messageTs : Nat) (modelId : String) (o : Oracle) :
    ∀ call ∈ (updateTopicAfterAnswerM cfg record prompt messageTs modelId o).2,
      call.queued = true ∧ call.kind ≠ CallKind.classification := by
  intro call hcall
  unfold updateTopicAfterAnswerM at hcall
  dsimp only at hcall
  exact generateTopicM_calls _ _ _ _ o call hcall

lemma updateTopicAndTitleM_calls (cfg : Config) (record : ChatRecord)
    (prompt : String) (messageTs : Nat) (modelId : String) (o : Oracle) :
    ∀ call ∈ (updateTopicAndTitleM cfg record prompt messageTs modelId o).2,
      call.queued = true ∧ call.kind ≠ CallKind.classification := by
  intro call hcall
  unfold updateTopicAndTitleM at hcall
  dsimp only at hcall
  rw [List.mem_append] at hcall
  rcases hcall with h | h
  · repeat' split at h
    all_goals first
      | exact generateTitleM_calls cfg _ o call h
      | simp at h
  · exact updateTopicAfterAnswerM_calls cfg _ prompt messageTs _ o call h

lemma maybePolishAnswerM_calls (record : ChatRecord) (answer messageId : String)
    (o : Oracle) :
    ∀ call ∈ (maybePolishAnswerM record answer messageId o).2,
      call.queued = true ∧ call.kind ≠ CallKind.classification := by
  intro call hcall
  unfold maybePolishAnswerM at hcall
  dsimp only at hcall
  repeat' split at hcall
  all_goals simp only [List.mem_cons, List.not_mem_nil, or_false] at hcall
  all_goals rcases hcall with rfl | rfl
  all_goals exact ⟨rfl, by simp⟩

lemma runPostAnswerUpdatesM_calls (cfg : Config) (record : ChatRecord)
    (answer : String) (answerTs messageTs : Nat) (prompt modelId messageId : String)
    (o : Oracle) :
    ∀ call ∈ (runPostAnswerUpdatesM cfg record answer answerTs messageTs prompt
        modelId messageId o).2,
      call.queued = true ∧ call.kind ≠ CallKind.classification := by
  intro call hcall
  unfold runPostAnswerUpdatesM at hcall
  generalize (if messageTs = 0 then answerTs else messageTs) = mts at hcall
  dsimp only at hcall
  rw [List.mem_append, List.mem_append] at hcall
  rcases hcall with (h | h) | h
  · exact updateTopicAndTitleM_calls cfg _ prompt _ modelId o call h
  · exact maybePolishAnswerM_calls _ answer messageId o call h
  · revert h
    split
    · intro h
      simp only [List.mem_cons, List.not_mem_nil, or_false] at h
      subst h
      exact ⟨rfl, by simp⟩
    · intro h
      simp at h

/-! ## C3: admission-queue discipline -/

/-- C3 (counterexample): the call trace of a turn contains an inference
call that did not pass through the admission queue — the routing
classification in `determineInfoSeeking` invokes `callOllamaChat`
directly. -/
theorem queue_discipline_cex :
    (handleChatModel sampleConfig sampleRequest none sampleOracle).calls.all
      (fun call => call.queued) = false := by decide

/-- C3 (amended): every inference call of a turn except the routing
classification executes under a `runHighLlm` admission of the
single-concurrency queue, and the classification call never does: a
call's `queued` flag holds exactly when it is not the classification. -/
theorem queue_discipline (cfg : Config) (req : TurnRequest)
    (store : Option ChatRecord) (o : Oracle) :
    ∀ call ∈ (handleChatModel cfg req store o).calls,
      (call.queued = true ↔ call.kind ≠ CallKind.classification) := by
  intro call hcall
  have hclass := classifierCalls_mem req.prompt
  unfold handleChatModel at hcall
  dsimp only at hcall
  split at hcall
  · -- idempotency replay: only the classification call happened
    have := hclass call hcall
    subst this
    simp
  · split at hcall
    · -- web branch
      split at hcall
      · -- main completion threw: classification, query, chat attempts
        rw [List.mem_append] at hcall
        rcases hcall with h | h
        · rw [List.mem_append] at h
          rcases h with h | h
          · have := hclass call h
            subst this; simp
          · simp only [List.mem_cons, List.not_mem_nil, or_false] at h
            subst h; simp
        · simp only [List.mem_cons, List.not_mem_nil, or_false] at h
          subst h; simp
      · -- answered: classification, query, chat, then post-answer calls
        rw [List.mem_append] at hcall
        rcases hcall with h | hpost
        · rw [List.mem_append, List.mem_append] at h
          rcases h with (h | h) | h
          · have := hclass call h
            subst this; simp
          · simp only [List.mem_cons, List.not_mem_nil, or_false] at h
            subst h; simp
          · simp only [List.mem_cons, List.not_mem_nil, or_false] at h
            subst h; simp
        · have := runPostAnswerUpdatesM_calls cfg _ _ _ _ req.prompt _ req.message_id
            o call hpost
          simp [this.1, this.2]
    · -- local branch
      split at hcall
      · -- main completion threw: classification and chat attempt
        rw [List.mem_append] at hcall
        rcases hcall with h | h
        · have := hclass call h
          subst this; simp
        · simp only [List.mem_cons, List.not_mem_nil, or_false] at h
          subst h; simp
      · -- answered: classification, chat, then post-answer calls
        rw [List.mem_append] at hcall
        rcases hcall with h | hpost
        · rw [List.mem_append] at h
          rcases h with h | h
          · have := hclass call h
            subst this; simp
          · simp only [List.mem_cons, List.not_mem_nil, or_false] at h
            subst h; simp
        · have := runPostAnswerUpdatesM_calls cfg _ _ _ _ req.prompt _ req.message_id
            o call hpost
          simp [this.1, this.2]

/-- Witness for `queue_discipline` at the classification call of a
concrete turn. -/
theorem queue_discipline_witness :
    ((⟨CallKind.classification, false⟩ : InfCall).queued = true ↔
      (⟨CallKind.classification, false⟩ : InfCall).kind ≠ CallKind.classification) :=
  queue_discipline sampleConfig sampleRequest none sampleOracle
    ⟨CallKind.classification, false⟩ (by decide)

/-! ## C5: override-off routing and the (not) skipped classification -/

/-- The classification call is in every turn's trace (for a nonempty
prompt seed), whichever branch the turn takes. -/
lemma classification_in_calls (cfg : Config) (req : TurnRequest)
    (store : Option ChatRecord) (o : Oracle)
    (hseed : infoSeekingSeed req.prompt ≠ "") :
    (⟨CallKind.classification, false⟩ : InfCall) ∈
      (handleChatModel cfg req store o).calls := by
  have hcc : classifierCalls req.prompt = [⟨.classification, false⟩] := by
    simp [classifierCalls, hseed]
  unfold handleChatModel
  dsimp only
  split
  · simp [hcc]
  · split
    · split <;> simp [hcc]
    · split <;> simp [hcc]

/-- C5 (counterexample): with the client override off, the turn handler
still runs the classifier — `determineInfoSeeking` is invoked before the
override is consulted, so the trace of an override-off turn contains the
classification call. -/
theorem override_off_still_classifies :
    sampleRequest.override = false ∧
    (⟨CallKind.classification, false⟩ : InfCall) ∈
      (handleChatModel sampleConfig sampleRequest none sampleOracle).calls :=
  ⟨rfl, by decide⟩

/-- C5 (amended): when the client override is false the routing decision
is `useWeb = false` with reason `client_override_off`, but classification
is *not* skipped: the classifier (or its heuristic fallback) still runs
for the turn, and the trace contains its (unqueued) inference call
whenever the prompt seed is nonempty. -/
theorem override_off_decision (cfg : Config) (req : TurnRequest)
    (store : Option ChatRecord) (o : Oracle) (hov : req.override = false) :
    turnWebDecision req.prompt req.override o.classifierResp =
      ⟨false, ["client_override_off"]⟩ ∧
    (infoSeekingSeed req.prompt ≠ "" →
      (⟨CallKind.classification, false⟩ : InfCall) ∈
        (handleChatModel cfg req store o).calls) := by
  constructor
  · rw [hov]
    simp [turnWebDecision]
  · intro hseed
    exact classification_in_calls cfg req store o hseed

/-- Witness for `override_off_decision` at a concrete override-off turn. -/
theorem override_off_decision_witness :
    turnWebDecision sampleRequest.prompt sampleRequest.override
      sampleOracle.classifierResp = ⟨false, ["client_override_off"]⟩ ∧
    (⟨CallKind.classification, false⟩ : InfCall) ∈
      (handleChatModel sampleConfig sampleRequest none sampleOracle).calls :=
  ⟨(override_off_decision sampleConfig sampleRequest none sampleOracle rfl).1,
   (override_off_decision sampleConfig sampleRequest none sampleOracle rfl).2
     (by decide)⟩

/-! ## C1: idempotent replay -/

/-- C1 (counterexample): a replayed message id does *not* make "no new
inference call": the classification call of `determineInfoSeeking` runs
before the idempotency lookup, so the trace of a replayed turn is
nonempty. -/
theorem idempotent_replay_still_classifies :
    lookupIdem sampleHitRecord.idempotency sampleRequest.message_id ≠ none ∧
    (handleChatModel sampleConfig sampleRequest (some sampleHitRecord)
      sampleOracle).calls ≠ [] :=
  ⟨by decide, by decide⟩

/-- C1 (amended): when the message id is already present in the record's
idempotency index, the turn responds with the cached answer and cached
sources (and the record's topic), appends no message pair — the record
is returned unchanged — and makes no inference call beyond the routing
classification that precedes the idempotency lookup. -/
theorem idempotent_replay (cfg : Config) (req : TurnRequest) (o : Oracle)
    (record : ChatRecord) (cached : IdemEntry)
    (hhit : lookupIdem record.idempotency req.message_id = some cached) :
    handleChatModel cfg req (some record) o =
      ⟨.ok cached.answer (cached.sources.getD []) record.topic, record, [],
        classifierCalls req.prompt⟩ := by
  unfold handleChatModel
  dsimp only
  simp only [Option.getD_some]
  rw [hhit]

/-- Witness for `idempotent_replay` at a concrete cached turn. -/
theorem idempotent_replay_witness :
    handleChatModel sampleConfig sampleRequest (some sampleHitRecord) sampleOracle =
      ⟨.ok (⟨"cached", 50, some [], false⟩ : IdemEntry).answer
        ((⟨"cached", 50, some [], false⟩ : IdemEntry).sources.getD [])
        sampleHitRecord.topic, sampleHitRecord, [],
        classifierCalls sampleRequest.prompt⟩ :=
  idempotent_replay sampleConfig sampleRequest sampleOracle sampleHitRecord
    ⟨"cached", 50, some [], false⟩ (by decide)

end BrainAtHome
